import Mathlib

/-!
# eos-bios: the orchestration engine of `bios.go`

A shallow embedding of the roster builder (`setProducers`, `shuffleProducers`,
`accountVariation`), the role resolver (`IsBootNode`, `IsAppointedBlockProducer`,
`MyRole`), the transaction chunker (`chunkifyActions`), the boot-sequence executor
(`RunBootSequence`), the join flow (`RunJoinNetwork`, `waitOnGenesisData`) and the
driver (`StartOrchestrate`), followed by the theorems settled about them.

Conventions of the embedding.

* A Go `string` is its sequence of bytes, `List Nat` with every element below 256;
  `len` and slicing `name[:10]` are byte operations, as in Go.
* A Go slice is a `List`; reading `s[i]` out of range panics, which is `none`.
* A `rand.Source` is the infinite sequence of the values its `Int63` returns, with a
  cursor; drawing advances the cursor.
* Unbounded `for` loops take a fuel argument and return `none` (or the outcome
  `blocked`) when the fuel is used up before the loop leaves.
* Collaborators outside `bios.go` (discovery network, hooks, chain client, console)
  are oracles gathered in `Env`; their answers are data of the run.
-/

namespace Bios

/-! ## Data model -/

/-- A Go string, as its bytes. -/
abbrev GoString := List Nat

/-- The discovery record of a peer. Only the fields `bios.go` computes with are kept:
`EOSIOAccountName` (compared by the role resolver) and `Website` (standing for the
contact fields that `waitOnGenesisData` only prints). -/
structure Discovery where
  EOSIOAccountName : GoString
  Website : GoString
  deriving DecidableEq, Repr

/-- The `Peer` struct as `setProducers` builds it: `&Peer{ClonedAccountName: ..., Discovery: ...}`.
A peer that is not a clone has the zero value `""` in `ClonedAccountName`. -/
structure Peer where
  ClonedAccountName : GoString
  Discovery : Discovery
  deriving DecidableEq, Repr

/-- Modelled from the spec: the method `Peer.AccountName()` is declared outside `bios.go`.
A clone answers with its clone name, every other peer with the chain account name its
discovery record declares. -/
def Peer.AccountName (p : Peer) : GoString :=
  if p.ClonedAccountName ≠ [] then p.ClonedAccountName else p.Discovery.EOSIOAccountName

/-- A `rand.Source`: the values successive `Int63` calls return, and how many were drawn. -/
structure RandSource where
  draws : Nat → Nat
  pos : Nat

/-- One call of `Int63`: a non-negative 63-bit value, and the advanced source. -/
def RandSource.Int63 (r : RandSource) : Nat × RandSource :=
  (r.draws r.pos % 2 ^ 63, { r with pos := r.pos + 1 })

/-! ## Roster builder -/

/-- The function `accountVariation`:
```go
if len(name) > 10 { name = name[:10] }
return name + "." + string([]byte{'a' + byte(variation-1)})
```
`byte(variation-1)` keeps the low eight bits and the byte addition wraps at 256. -/
def accountVariation (name : GoString) (variation : Int) : GoString :=
  let name := if name.length > 10 then name.take 10 else name
  name ++ [46] ++ [((97 + (variation - 1) % 256) % 256).toNat]

/-- The parallel assignment `s[i], s[j] = s[j], s[i]`; an index out of range panics. -/
def swapAt (s : List Peer) (i j : Nat) : Option (List Peer) :=
  match s[i]?, s[j]? with
  | some a, some b => some ((s.set i b).set j a)
  | _, _ => none

/-- The count `int64(math.Min(math.Ceil(float64(n)*0.25), 5))`. Multiplying by 0.25 is
exact in binary floating point and `float64(n)` is exact below `2^53`; above it the
product is far beyond 5, so the value is `min (ceil (n/4)) 5` for every length. -/
def shuffleHowMany (n : Nat) : Nat :=
  min ((n + 3) / 4) 5

/-- The body of `for round := 0; round < 100; round++`, with `rounds` iterations left. -/
def shuffleRounds (howMany : Nat) : Nat → RandSource → List Peer → Option (List Peer × RandSource)
  | 0, r, s => some (s, r)
  | rounds + 1, r, s =>
    let (a, r) := r.Int63
    let fromIdx := a % howMany
    let (b, r) := r.Int63
    let toIdx := b % howMany
    if fromIdx = toIdx then shuffleRounds howMany rounds r s
    else
      match swapAt s fromIdx toIdx with
      | none => none
      | some s => shuffleRounds howMany rounds r s

/-- The method `shuffleProducers` on the roster and the source `rand.New` wraps. -/
def shuffleProducers (s : List Peer) (r : RandSource) : Option (List Peer × RandSource) :=
  if shuffleHowMany s.length > 1 then shuffleRounds (shuffleHowMany s.length) 100 r s
  else some (s, r)

/-- The padding loop of `setProducers`:
```go
for {
    if len(b.ShuffledProducers) == 22 { break }
    fromPeer := b.ShuffledProducers[1+count%cloneCount]
    count++
    clonedProd := &Peer{ClonedAccountName: accountVariation(fromPeer.AccountName(), count), Discovery: fromPeer.Discovery}
    b.ShuffledProducers = append(b.ShuffledProducers, clonedProd)
}
```
-/
def padLoop (cloneCount : Nat) : Nat → List Peer → Nat → Option (List Peer)
  | 0, _, _ => none
  | fuel + 1, s, count =>
    if s.length = 22 then some s
    else
      match s[1 + count % cloneCount]? with
      | none => none
      | some fromPeer =>
        let count := count + 1
        let clonedProd : Peer :=
          { ClonedAccountName := accountVariation fromPeer.AccountName count
            Discovery := fromPeer.Discovery }
        padLoop cloneCount fuel (s ++ [clonedProd]) count

/-- The first statements of `setProducers`:
```go
b.ShuffledProducers = b.Network.OrderedPeers()
if b.RandSource != nil { b.shuffleProducers() }
```
-/
def shuffleStep (orderedPeers : List Peer) (randSource : Option RandSource) :
    Option (List Peer × Option RandSource) :=
  match randSource with
  | some r => (shuffleProducers orderedPeers r).map fun p => (p.1, some p.2)
  | none => some (orderedPeers, none)

/-- The method `setProducers`, on what it reads (`Network.OrderedPeers()`, `RandSource`)
and writes (`ShuffledProducers`, and the state of the source). -/
def setProducers (fuel : Nat) (orderedPeers : List Peer) (randSource : Option RandSource) :
    Option (List Peer × Option RandSource) :=
  match shuffleStep orderedPeers randSource with
  | none => none
  | some (s, r) =>
    if s.length > 1 then
      if s.length < 22 then
        (padLoop (s.length - 1) fuel s 0).map fun s => (s, r)
      else some (s, r)
    else some (s, r)

/-- The clone the padding loop appends when its counter reaches `c`, read off the
roster `s`: the peer at index `1 + (c-1) % cloneCount`, renamed by `accountVariation`. -/
def cloneOf (s : List Peer) (cloneCount c : Nat) : Option Peer :=
  (s[1 + (c - 1) % cloneCount]?).map fun p =>
    { ClonedAccountName := accountVariation p.AccountName (c : Int), Discovery := p.Discovery }

/-! ## Role resolver -/

/-- The constants `RoleBootNode`, `RoleABP`, `RoleParticipant`. -/
inductive Role where
  | RoleBootNode
  | RoleABP
  | RoleParticipant
  deriving DecidableEq, Repr

/-- The method `IsBootNode`: `string(b.ShuffledProducers[0].AccountName()) == account`.
An empty roster panics. -/
def IsBootNode (shuffledProducers : List Peer) (account : GoString) : Option Bool :=
  match shuffledProducers[0]? with
  | some p => some (decide (p.AccountName = account))
  | none => none

/-- The loop of `IsAppointedBlockProducer`, entered at index `i`:
```go
for i := 1; i < 22 && len(b.ShuffledProducers) > i; i++ {
    if b.ShuffledProducers[i].Discovery.EOSIOAccountName == account { return true }
}
return false
```
The first argument counts the tests of the loop condition still to come; the loop
starts at 1 and stops at 22, so 22 of them are enough. -/
def abpLoop (shuffledProducers : List Peer) (account : GoString) : Nat → Nat → Bool
  | 0, _ => false
  | left + 1, i =>
    if h : i < 22 ∧ shuffledProducers.length > i then
      have : i < shuffledProducers.length := h.2
      if shuffledProducers[i].Discovery.EOSIOAccountName = account then true
      else abpLoop shuffledProducers account left (i + 1)
    else false

/-- The method `IsAppointedBlockProducer`. -/
def IsAppointedBlockProducer (shuffledProducers : List Peer) (account : GoString) : Bool :=
  abpLoop shuffledProducers account 22 1

/-- The method `MyRole`, with `AmIBootNode` and `AmIAppointedBlockProducer` inlined: both
pass `b.Network.MyPeer.Discovery.EOSIOAccountName`. -/
def MyRole (shuffledProducers : List Peer) (myPeer : Peer) : Option Role :=
  match IsBootNode shuffledProducers myPeer.Discovery.EOSIOAccountName with
  | none => none
  | some true => some Role.RoleBootNode
  | some false =>
    if IsAppointedBlockProducer shuffledProducers myPeer.Discovery.EOSIOAccountName then
      some Role.RoleABP
    else some Role.RoleParticipant

/-- The method `setMyPeers`: the local peer, then every roster entry whose discovery
record declares the local account name. -/
def setMyPeers (shuffledProducers : List Peer) (myPeer : Peer) : List Peer :=
  myPeer :: shuffledProducers.filter fun peer =>
    decide (peer.Discovery.EOSIOAccountName = myPeer.Discovery.EOSIOAccountName)

/-! ## Transaction chunking -/

/-- The `for _, act := range actions` loop of `chunkifyActions`, on `out` and `currentChunk`. -/
def chunkLoop {α : Type} (chunkSize : Int) :
    List α → List (List α) → List α → List (List α) × List α
  | [], out, currentChunk => (out, currentChunk)
  | act :: rest, out, currentChunk =>
    if (currentChunk.length : Int) > chunkSize then
      chunkLoop chunkSize rest (out ++ [currentChunk]) ([] ++ [act])
    else
      chunkLoop chunkSize rest out (currentChunk ++ [act])

/-- The function `chunkifyActions`; `chunkSize` is a Go `int` and may be negative. -/
def chunkifyActions {α : Type} (actions : List α) (chunkSize : Int) : List (List α) :=
  let (out, currentChunk) := chunkLoop chunkSize actions [] []
  if currentChunk.length > 0 then out ++ [currentChunk] else out

/-! ## Collaborators, state and runs -/

/-- The type `GenesisJSON`, as `GenerateGenesisJSON` fills it. -/
structure GenesisJSON where
  InitialTimestamp : GoString
  InitialKey : GoString
  InitialChainID : GoString
  deriving DecidableEq, Repr

/-- An `ecc.PrivateKey`, by the two strings `bios.go` takes from it: `String()` and
`PublicKey().String()`. -/
structure PrivateKey where
  wif : GoString
  pub : GoString
  deriving DecidableEq, Repr

/-- The part of an account `RunJoinNetwork` inspects: for each entry of
`acct.Permissions`, its `RequiredAuth.Threshold`. -/
structure AccountResp where
  Permissions : List Nat
  deriving DecidableEq, Repr

/-- The discovery network, by what `bios.go` asks of it: `OrderedPeers()` and `MyPeer`. -/
structure Network where
  OrderedPeers : List Peer
  MyPeer : Peer
  deriving DecidableEq, Repr

/-- The hook events, in protocol order. -/
inductive Hook where
  | init
  | boot_publish_genesis
  | boot_node
  | join_network
  | boot_connect_mesh
  | boot_publish_handoff
  | done
  deriving DecidableEq, Repr

/-- The places where `bios.go` returns a non-nil error. -/
inductive BiosError where
  | generateKey
  | importWIF
  | hook (h : Hook)
  | gettingActions
  | signPushActions
  | updateGraph
  | loadLaunch
  deriving DecidableEq, Repr

/-- The calls to collaborators that a run makes, as recorded in its trace. -/
inductive Event (α : Type) where
  | dispatch (h : Hook)
  | newRandomPrivateKey
  | importPrivateKey
  | signPushActions (chunk : List α)
  | getAccount
  | scanSingleLine
  | pollEthereumClock
  | updateGraph
  deriving DecidableEq, Repr

/-- What a run has done so far: the trace of its calls, oldest first, and for each
collaborator answering by turn the number of calls already made. -/
structure World (α : Type) where
  trace : List (Event α)
  pushes : Nat
  polls : Nat
  lines : Nat
  clock : Nat
  deriving DecidableEq, Repr

/-- The fields of `BIOS` other than the boot sequence. -/
structure BIOSCore where
  Network : Network
  Genesis : Option GenesisJSON
  ShuffledProducers : List Peer
  RandSource : Option RandSource
  MyPeers : List Peer
  EphemeralPrivateKey : Option PrivateKey

/-- An entry of the boot sequence. `step.Data.Actions(b)` is the field `Actions`, reading
the state of the engine; `none` is its error. -/
structure OperationType (α : Type) where
  Label : GoString
  Op : GoString
  Actions : BIOSCore → Option (List α)

/-- The struct `BIOS`. -/
structure BIOS (α : Type) extends BIOSCore where
  BootSequence : List (OperationType α)

/-- The answers of the collaborators. Those that answer by turn take the number of the
call. Values that are only handed on to a hook or printed are left out. -/
structure Env (α : Type) where
  /-- The result of `ecc.NewRandomPrivateKey()`; `none` is an error. -/
  NewRandomPrivateKey : Option PrivateKey
  /-- Whether `Signer.ImportPrivateKey` returns a nil error. -/
  ImportPrivateKey : GoString → Bool
  /-- Whether the signer `b.EOSAPI.Signer` holds an `*eos.KeyBag`, the type that
  `RunBootSequence` asserts of it without a check. -/
  SignerIsKeyBag : Bool
  /-- Whether the dispatch of a hook returns a nil error. -/
  dispatch : Hook → Bool
  /-- Whether the n-th `SignPushActions` call, on this chunk, returns a nil error. -/
  SignPushActions : Nat → List α → Bool
  /-- The n-th `GetAccount(AN("eosio"))`; `none` is an error. -/
  GetAccount : Nat → Option AccountResp
  /-- The n-th `ScanSingleLine()`; `none` is an error. -/
  ScanSingleLine : Nat → Option GoString
  /-- The function `readGenesisData`: the pointer returned (`none` is nil) and whether the
  error returned is non-nil. -/
  readGenesisData : GoString → Option GenesisJSON × Bool
  /-- The call `Network.IPFS.Get`; `none` is an error. -/
  ipfsGet : GoString → Option GoString
  /-- The function `strings.TrimSpace`. -/
  TrimSpace : GoString → GoString
  /-- The function `ecc.NewPrivateKey`; `none` is an error. -/
  NewPrivateKey : GoString → Option PrivateKey
  /-- The n-th `PollEthereumClock`; `none` is an error, `some []` a block not produced yet. -/
  PollEthereumClock : Nat → Option GoString
  /-- The function `hex.DecodeString`; `none` is an error. -/
  hexDecodeString : GoString → Option (List Nat)
  /-- The function `crc64.Checksum` with the ECMA table, a `uint64`. -/
  crc64Checksum : List Nat → Nat
  /-- The function `rand.NewSource`. -/
  NewSource : Int → RandSource
  /-- The call `Network.UpdateGraph()`: the network after it, `none` on error. -/
  UpdateGraph : Network → Option Network
  /-- Whether `Network.ConsensusLaunchData()` returns a nil error. -/
  ConsensusLaunchData : Bool
  /-- Lines 66 to 93 of `Init`: the boot sequence loaded, `none` when reading or decoding
  the boot sequence or the snapshot fails. -/
  loadLaunch : Option (List (OperationType α))

/-- How a call ended: it returned (with an error or nil), it panicked, it ended the
process with `os.Exit(1)`, or it was still waiting in a loop when the fuel ran out. -/
inductive Outcome where
  | returned (err : Option BiosError)
  | panicked
  | exited
  | blocked
  deriving DecidableEq, Repr

/-- A run of a method of `BIOS`: how it ended, and the state and world it left. -/
structure Run (α : Type) where
  outcome : Outcome
  bios : BIOS α
  world : World α

/-- Record a call in the trace. -/
def World.log {α : Type} (w : World α) (e : Event α) : World α :=
  { w with trace := w.trace ++ [e] }

/-- The world before any call. -/
def World.start {α : Type} : World α :=
  { trace := [], pushes := 0, polls := 0, lines := 0, clock := 0 }

/-- The constructor `NewBIOS`: every field but the network has its zero value. -/
def NewBIOS {α : Type} (network : Network) : BIOS α :=
  { Network := network, Genesis := none, ShuffledProducers := [], RandSource := none,
    MyPeers := [], EphemeralPrivateKey := none, BootSequence := [] }

/-! ## Boot-sequence executor -/

/-- The loop `for idx, chunk := range chunkifyActions(acts, 400)` of `RunBootSequence`:
each chunk goes to `SignPushActions`; the first error leaves the loop. The boolean
tells whether every chunk went through. -/
def pushChunks {α : Type} (env : Env α) : List (List α) → World α → Bool × World α
  | [], w => (true, w)
  | chunk :: rest, w =>
    let ok := env.SignPushActions w.pushes chunk
    let w := { w.log (Event.signPushActions chunk) with pushes := w.pushes + 1 }
    if ok then pushChunks env rest w else (false, w)

/-- The loop `for _, step := range b.BootSequence` of `RunBootSequence`. -/
def bootSteps {α : Type} (env : Env α) (b : BIOSCore) :
    List (OperationType α) → World α → Option BiosError × World α
  | [], w => (none, w)
  | step :: rest, w =>
    match step.Actions b with
    | none => (some BiosError.gettingActions, w)
    | some acts =>
      if acts.length ≠ 0 then
        match pushChunks env (chunkifyActions acts 400) w with
        | (false, w) => (some BiosError.signPushActions, w)
        | (true, w) => bootSteps env b rest w
      else bootSteps env b rest w

/-- The method `RunBootSequence`. Printing is left out, except that the `Printf` of the
key slices `privKey[:7]` and `privKey[len(privKey)-7:]`, which panics on a key string
shorter than seven bytes. After the import, `b.EOSAPI.Signer.(*eos.KeyBag)` asserts the
type of the signer without a check and panics on any other signer. The values only
handed to a hook (`GenerateGenesisJSON`, `someTopmostPeersAddresses`) are left out. -/
def RunBootSequence {α : Type} (env : Env α) (b : BIOS α) (w : World α) : Run α :=
  let w := w.log Event.newRandomPrivateKey
  match env.NewRandomPrivateKey with
  | none => ⟨Outcome.returned (some BiosError.generateKey), b, w⟩
  | some key =>
    let b : BIOS α := { b with EphemeralPrivateKey := some key }
    if key.wif.length < 7 then ⟨Outcome.panicked, b, w⟩
    else
      let w := w.log Event.importPrivateKey
      if env.ImportPrivateKey key.wif = false then
        ⟨Outcome.returned (some BiosError.importWIF), b, w⟩
      else if env.SignerIsKeyBag = false then ⟨Outcome.panicked, b, w⟩
      else
        let w := w.log (Event.dispatch Hook.boot_publish_genesis)
        if env.dispatch Hook.boot_publish_genesis = false then
          ⟨Outcome.returned (some (BiosError.hook Hook.boot_publish_genesis)), b, w⟩
        else
          let w := w.log (Event.dispatch Hook.boot_node)
          if env.dispatch Hook.boot_node = false then
            ⟨Outcome.returned (some (BiosError.hook Hook.boot_node)), b, w⟩
          else
            match bootSteps env b.toBIOSCore b.BootSequence w with
            | (some err, w) => ⟨Outcome.returned (some err), b, w⟩
            | (none, w) =>
              let w := w.log (Event.dispatch Hook.boot_connect_mesh)
              if env.dispatch Hook.boot_connect_mesh = false then
                ⟨Outcome.returned (some (BiosError.hook Hook.boot_connect_mesh)), b, w⟩
              else
                let w := w.log (Event.dispatch Hook.boot_publish_handoff)
                if env.dispatch Hook.boot_publish_handoff = false then
                  ⟨Outcome.returned (some (BiosError.hook Hook.boot_publish_handoff)), b, w⟩
                else ⟨Outcome.returned none, b, w⟩

/-! ## Join flow -/

/-- The `for` loop of `waitOnGenesisData`:
```go
for {
    text, err := ScanSingleLine()
    if err != nil { fmt.Println("error reading line:", err); continue }
    genesis, err := readGenesisData(text, b.Network.IPFS)
    if err != nil { fmt.Println(err) }
    return genesis
}
```
The result is `none` while the loop is still waiting, else the pointer returned. -/
def genesisLoop {α : Type} (env : Env α) :
    Nat → World α → Option (Option GenesisJSON) × World α
  | 0, w => (none, w)
  | fuel + 1, w =>
    let line := env.ScanSingleLine w.lines
    let w := { w.log Event.scanSingleLine with lines := w.lines + 1 }
    match line with
    | none => genesisLoop env fuel w
    | some text =>
      let (genesis, _) := env.readGenesisData text
      (some genesis, w)

/-- The method `waitOnGenesisData`. It reads `b.ShuffledProducers[0]` first, for the
contact fields it prints; on an empty roster that read panics (outer `none`). -/
def waitOnGenesisData {α : Type} (env : Env α) (fuel : Nat) (b : BIOS α) (w : World α) :
    Option (Option (Option GenesisJSON) × World α) :=
  match b.ShuffledProducers[0]? with
  | none => none
  | some _ => some (genesisLoop env fuel w)

/-- The polling loop of `RunJoinNetwork` under `if verify`: it leaves once `GetAccount`
answers with exactly two permissions, both of threshold 0. The boolean tells whether
the loop has left. -/
def verifyLoop {α : Type} (env : Env α) : Nat → World α → Bool × World α
  | 0, w => (false, w)
  | fuel + 1, w =>
    let resp := env.GetAccount w.polls
    let w := { w.log Event.getAccount with polls := w.polls + 1 }
    match resp with
    | none => verifyLoop env fuel w
    | some acct =>
      if acct.Permissions.length ≠ 2 ∨ acct.Permissions[0]? ≠ some 0
          ∨ acct.Permissions[1]? ≠ some 0 then
        verifyLoop env fuel w
      else (true, w)

/-- The method `waitOnHandoff`. `genesis.InitialKey` dereferences the pointer it was
given, which panics when that pointer is nil. -/
def waitOnHandoff {α : Type} (env : Env α) (genesis : Option GenesisJSON) :
    Nat → World α → Outcome × World α
  | 0, w => (Outcome.blocked, w)
  | fuel + 1, w =>
    let line := env.ScanSingleLine w.lines
    let w := { w.log Event.scanSingleLine with lines := w.lines + 1 }
    match line with
    | none => waitOnHandoff env genesis fuel w
    | some privKey =>
      let fetched : Option GoString :=
        if [47, 105, 112, 102, 115] <:+: privKey then env.ipfsGet privKey else some privKey
      match fetched with
      | none => waitOnHandoff env genesis fuel w
      | some privKey =>
        match env.NewPrivateKey (env.TrimSpace privKey) with
        | none => waitOnHandoff env genesis fuel w
        | some key =>
          match genesis with
          | none => (Outcome.panicked, w)
          | some g =>
            if key.pub = g.InitialKey then (Outcome.returned none, w)
            else waitOnHandoff env genesis fuel w

/-- The first statement of `RunJoinNetwork`:
```go
if b.Genesis == nil { b.Genesis = b.waitOnGenesisData() }
```
The outer `none` is a panic; an inner `none` means the wait was still on when the fuel
ran out. -/
def obtainGenesis {α : Type} (env : Env α) (fuel : Nat) (b : BIOS α) (w : World α) :
    Option (Option (BIOS α) × World α) :=
  match b.Genesis with
  | some _ => some (some b, w)
  | none =>
    match waitOnGenesisData env fuel b w with
    | none => none
    | some (none, w) => some (none, w)
    | some (some genesis, w) => some (some { b with Genesis := genesis }, w)

/-- The method `RunJoinNetwork`. The parameter `sabotage` is not read by the body, and
the addresses of `computeMyMeshP2PAddresses` are only handed to the `join_network` hook. -/
def RunJoinNetwork {α : Type} (env : Env α) (fuel : Nat) (verify _sabotage : Bool)
    (b : BIOS α) (w : World α) : Run α :=
  match obtainGenesis env fuel b w with
  | none => ⟨Outcome.panicked, b, w⟩
  | some (none, w) => ⟨Outcome.blocked, b, w⟩
  | some (some b, w) =>
    let w := w.log (Event.dispatch Hook.join_network)
    if env.dispatch Hook.join_network = false then
      ⟨Outcome.returned (some (BiosError.hook Hook.join_network)), b, w⟩
    else
      let verified : Bool × World α := if verify then verifyLoop env fuel w else (true, w)
      match verified with
      | (false, w) => ⟨Outcome.blocked, b, w⟩
      | (true, w) =>
        let (outcome, w) := waitOnHandoff env b.Genesis fuel w
        ⟨outcome, b, w⟩

/-! ## Driver -/

/-- The method `Init`. When `ConsensusLaunchData` fails the process ends with
`os.Exit(1)`; a failure in reading or decoding the boot sequence or the snapshot (lines
66 to 93, one oracle) returns an error. Then come `setProducers` and `setMyPeers`. -/
def Init {α : Type} (env : Env α) (fuel : Nat) (b : BIOS α) : Outcome × BIOS α :=
  if env.ConsensusLaunchData = false then (Outcome.exited, b)
  else
    match env.loadLaunch with
    | none => (Outcome.returned (some BiosError.loadLaunch), b)
    | some bootSeq =>
      let b : BIOS α := { b with BootSequence := bootSeq }
      match setProducers fuel b.Network.OrderedPeers b.RandSource with
      | none => (Outcome.blocked, b)
      | some (roster, r) =>
        let b : BIOS α := { b with ShuffledProducers := roster, RandSource := r }
        let b : BIOS α :=
          { b with MyPeers := setMyPeers b.ShuffledProducers b.Network.MyPeer }
        (Outcome.returned none, b)

/-- The method `waitEthereumBlock`: it polls until the clock service names a block hash
that decodes from hexadecimal, and seeds a source with `int64` of its CRC-64. -/
def waitEthereumBlock {α : Type} (env : Env α) : Nat → World α → Option RandSource × World α
  | 0, w => (none, w)
  | fuel + 1, w =>
    let polled := env.PollEthereumClock w.clock
    let w := { w.log Event.pollEthereumClock with clock := w.clock + 1 }
    match polled with
    | none => waitEthereumBlock env fuel w
    | some hash =>
      if hash = [] then waitEthereumBlock env fuel w
      else
        match env.hexDecodeString hash with
        | none => waitEthereumBlock env fuel w
        | some bytes =>
          let chksum : Nat := env.crc64Checksum bytes % 2 ^ 64
          (some (env.NewSource (((chksum : Int) + 2 ^ 63) % 2 ^ 64 - 2 ^ 63)), w)

/-- Lines 107 to 128 of `StartOrchestrate`, up to the `switch b.MyRole()`: wait for the
entropy and store the source, update the graph, dispatch the `init` hook. The result is
the state and world at the switch, or the run that ended before it. -/
def orchestratePrepare {α : Type} (env : Env α) (fuel : Nat) (b : BIOS α) (w : World α) :
    Except (Run α) (BIOS α × World α) :=
  match waitEthereumBlock env fuel w with
  | (none, w) => Except.error ⟨Outcome.blocked, b, w⟩
  | (some source, w) =>
    let b : BIOS α := { b with RandSource := some source }
    let w := w.log Event.updateGraph
    match env.UpdateGraph b.Network with
    | none => Except.error ⟨Outcome.returned (some BiosError.updateGraph), b, w⟩
    | some network =>
      let b : BIOS α := { b with Network := network }
      let w := w.log (Event.dispatch Hook.init)
      if env.dispatch Hook.init = false then
        Except.error ⟨Outcome.returned (some (BiosError.hook Hook.init)), b, w⟩
      else Except.ok (b, w)

/-- The `switch b.MyRole()` of `StartOrchestrate`:
```go
case RoleBootNode: b.RunBootSequence(secretP2PAddress)
case RoleABP:      b.RunJoinNetwork(true, true)
default:           b.RunJoinNetwork(true, false)
```
-/
def orchestrateDispatch {α : Type} (env : Env α) (fuel : Nat) (role : Role) (b : BIOS α)
    (w : World α) : Run α :=
  match role with
  | Role.RoleBootNode => RunBootSequence env b w
  | Role.RoleABP => RunJoinNetwork env fuel true true b w
  | Role.RoleParticipant => RunJoinNetwork env fuel true false b w

/-- The method `StartOrchestrate`. -/
def StartOrchestrate {α : Type} (env : Env α) (fuel : Nat) (b : BIOS α) (w : World α) : Run α :=
  match orchestratePrepare env fuel b w with
  | Except.error run => run
  | Except.ok (b, w) =>
    match MyRole b.ShuffledProducers b.Network.MyPeer with
    | none => ⟨Outcome.panicked, b, w⟩
    | some role =>
      let run := orchestrateDispatch env fuel role b w
      match run.outcome with
      | Outcome.returned none =>
        let w := run.world.log (Event.dispatch Hook.done)
        if env.dispatch Hook.done = false then
          ⟨Outcome.returned (some (BiosError.hook Hook.done)), run.bios, w⟩
        else ⟨Outcome.returned none, run.bios, w⟩
      | _ => run

/-- The role that `StartOrchestrate` resolves at its switch, when the run gets there. -/
def roleAtDispatch {α : Type} (env : Env α) (fuel : Nat) (b : BIOS α) (w : World α) :
    Option Role :=
  match orchestratePrepare env fuel b w with
  | Except.error _ => none
  | Except.ok (b, _) => MyRole b.ShuffledProducers b.Network.MyPeer

/-- The roster that the claim has at the switch: `setProducers` on the ordered peers of
the updated network, with the source seeded from the entropy. -/
def rosterRebuilt {α : Type} (env : Env α) (fuel : Nat) (b : BIOS α) (w : World α) :
    Option (List Peer) :=
  match orchestratePrepare env fuel b w with
  | Except.error _ => none
  | Except.ok (b, _) => (setProducers fuel b.Network.OrderedPeers b.RandSource).map Prod.fst

/-- Whether a trace holds a poll of the `eosio` account, the chain-sync verification. -/
def pollsEosio {α : Type} (trace : List (Event α)) : Bool :=
  trace.any fun e => match e with
    | Event.getAccount => true
    | _ => false

/-- The chunks a trace submitted through `SignPushActions`, in order. -/
def submitted {α : Type} (trace : List (Event α)) : List (List α) :=
  trace.filterMap fun e => match e with
    | Event.signPushActions chunk => some chunk
    | _ => none

/-- The chunks that go out when submission stops right after the first failure: the
`i`-th chunk is the call number `n + i`. -/
def cutAfterFirstFailure {α : Type} (ok : Nat → List α → Bool) :
    Nat → List (List α) → List (List α)
  | _, [] => []
  | n, chunk :: rest =>
    if ok n chunk then chunk :: cutAfterFirstFailure ok (n + 1) rest else [chunk]

/-- Whether every chunk of the list goes through, the `i`-th being the call number `n + i`. -/
def allPushed {α : Type} (ok : Nat → List α → Bool) : Nat → List (List α) → Bool
  | _, [] => true
  | n, chunk :: rest => ok n chunk && allPushed ok (n + 1) rest

/-- The chunks of `chunkifyActions(acts, 400)` for each operation of a boot sequence, in
document order, `acts` being the actions the operation yields on the state `core`. -/
def bootChunks {α : Type} (core : BIOSCore) (steps : List (OperationType α)) : List (List α) :=
  (steps.map fun step => chunkifyActions ((step.Actions core).getD []) 400).flatten

/-! ## Concrete inputs -/

/-- A peer that is not a clone, declaring the one-letter account name `'a' + i`. -/
def peerNamed (i : Nat) : Peer :=
  { ClonedAccountName := [], Discovery := { EOSIOAccountName := [97 + i], Website := [] } }

/-- Three discovered peers `a`, `b`, `c`. -/
def peers3 : List Peer := [peerNamed 0, peerNamed 1, peerNamed 2]

/-- Five discovered peers `a` to `e`. -/
def peers5 : List Peer := (List.range 5).map peerNamed

/-- Twenty-three discovered peers `a` to `w`. -/
def peers23 : List Peer := (List.range 23).map peerNamed

/-- A source whose second draw is 1 and every other draw 0: with a window of two, the
first round swaps indices 0 and 1 and every later round draws equal indices. -/
def sourceSwap01 : RandSource :=
  { draws := fun i => if i = 1 then 1 else 0, pos := 0 }

/-- An ephemeral key: a key string of seven bytes and the public key `K`. -/
def keyK : PrivateKey := { wif := [53, 75, 49, 50, 51, 52, 53], pub := [75] }

/-- A genesis descriptor whose initial key is that of `keyK`. -/
def genesisG : GenesisJSON :=
  { InitialTimestamp := [], InitialKey := [75], InitialChainID := [] }

/-- Collaborators that all answer at once and without error: the signer is a key bag,
every hook and every submission goes through, the clock names a block, the graph update
changes nothing, the account `eosio` shows two permissions of threshold 0, every pasted
line parses as `genesisG` and as `keyK`, and the seeded source is `sourceSwap01`. -/
def envQuiet : Env Nat :=
  { NewRandomPrivateKey := some keyK
    ImportPrivateKey := fun _ => true
    SignerIsKeyBag := true
    dispatch := fun _ => true
    SignPushActions := fun _ _ => true
    GetAccount := fun _ => some { Permissions := [0, 0] }
    ScanSingleLine := fun _ => some [107]
    readGenesisData := fun _ => (some genesisG, false)
    ipfsGet := fun _ => none
    TrimSpace := fun t => t
    NewPrivateKey := fun _ => some keyK
    PollEthereumClock := fun _ => some [48, 48]
    hexDecodeString := fun _ => some [0]
    crc64Checksum := fun _ => 0
    NewSource := fun _ => sourceSwap01
    UpdateGraph := fun network => some network
    ConsensusLaunchData := true
    loadLaunch := some [] }

/-- As `envQuiet`, but the first pasted line is `x`, which `readGenesisData` fails on
(nil pointer, non-nil error), and every later line is `g`, which parses as `genesisG`. -/
def envBadGenesis : Env Nat :=
  { envQuiet with
    ScanSingleLine := fun n => if n = 0 then some [120] else some [103]
    readGenesisData := fun t => if t = [103] then (some genesisG, false) else (none, true) }

/-- The engine of the local peer `b` among the five peers `a` to `e`, after `NewBIOS` and
`Init`: no entropy yet, so `RandSource` is nil and the roster is unshuffled. -/
def biosFive : BIOS Nat :=
  (Init envQuiet 21 (NewBIOS { OrderedPeers := peers5, MyPeer := peerNamed 1 })).2

/-- The engine of the local peer `w`, last of the twenty-three peers `a` to `w`, after
`NewBIOS` and `Init`. -/
def biosLast : BIOS Nat :=
  (Init envQuiet 21 (NewBIOS { OrderedPeers := peers23, MyPeer := peerNamed 22 })).2

/-- As `envQuiet`, but the dispatch of the `boot_node` hook returns an error. -/
def envBootNodeHookFails : Env Nat :=
  { envQuiet with dispatch := fun h => decide (h ≠ Hook.boot_node) }

/-- The engine of scenario B: a boot sequence of two operations, the first yielding no
action and the second the three actions 1, 2, 3. -/
def biosBoot : BIOS Nat :=
  { biosFive with
    BootSequence :=
      [{ Label := [], Op := [], Actions := fun _ => some [] },
       { Label := [], Op := [], Actions := fun _ => some [1, 2, 3] }] }

/-- The engine `biosLast` at the switch of `StartOrchestrate` under `envQuiet`: the source
is stored, nothing else has changed. -/
def biosLastAtSwitch : BIOS Nat :=
  { biosLast with RandSource := some sourceSwap01 }

/-- The world at the switch of `StartOrchestrate` under `envQuiet`, from `World.start`:
one poll of the clock, the graph update, the `init` hook. -/
def worldAtSwitch : World Nat :=
  { trace := [Event.pollEthereumClock, Event.updateGraph, Event.dispatch Hook.init],
    pushes := 0, polls := 0, lines := 0, clock := 1 }

/-- The roster `setProducers` builds from the two peers `a` and `b`: `a`, `b`, then the
twenty clones `b.a` to `b.t` of `b`. -/
def roster2 : List Peer :=
  ((setProducers 21 [peerNamed 0, peerNamed 1] none).map Prod.fst).getD []

/-! ## Lemmas on the roster builder -/

theorem swapAt_some (s : List Peer) (i j : Nat) (hi : i < s.length) (hj : j < s.length) :
    ∃ s', swapAt s i j = some s' ∧ s'.length = s.length ∧
      ∀ k, k ≠ i → k ≠ j → s'[k]? = s[k]? := by
  unfold swapAt
  rw [List.getElem?_eq_getElem hi, List.getElem?_eq_getElem hj]
  refine ⟨_, rfl, by simp, ?_⟩
  intro k hki hkj
  rw [List.getElem?_set_ne (Ne.symm hkj), List.getElem?_set_ne (Ne.symm hki)]

theorem shuffleRounds_spec (howMany : Nat) (h0 : 0 < howMany) :
    ∀ (rounds : Nat) (r : RandSource) (s : List Peer), howMany ≤ s.length →
      ∃ s' r', shuffleRounds howMany rounds r s = some (s', r') ∧ s'.length = s.length ∧
        ∀ k, howMany ≤ k → s'[k]? = s[k]? := by
  intro rounds
  induction rounds with
  | zero => intro r s _; exact ⟨s, r, rfl, rfl, fun _ _ => rfl⟩
  | succ n ih =>
    intro r s hs
    simp only [shuffleRounds]
    split
    · exact ih _ s hs
    · have hi : r.Int63.1 % howMany < s.length := lt_of_lt_of_le (Nat.mod_lt _ h0) hs
      have hj : r.Int63.2.Int63.1 % howMany < s.length := lt_of_lt_of_le (Nat.mod_lt _ h0) hs
      obtain ⟨s1, h1, hl, hk⟩ := swapAt_some s _ _ hi hj
      rw [h1]
      obtain ⟨s2, r2, h2, hl2, hk2⟩ := ih r.Int63.2.Int63.2 s1 (by omega)
      refine ⟨s2, r2, h2, by omega, ?_⟩
      intro k hkk
      rw [hk2 k hkk]
      apply hk
      · have := Nat.mod_lt r.Int63.1 h0; omega
      · have := Nat.mod_lt r.Int63.2.Int63.1 h0; omega

theorem shuffleHowMany_le (n : Nat) (h : 1 < shuffleHowMany n) : shuffleHowMany n ≤ n := by
  unfold shuffleHowMany at *
  omega

theorem shuffleProducers_spec (s : List Peer) (r : RandSource) :
    ∃ s' r', shuffleProducers s r = some (s', r') ∧ s'.length = s.length ∧
      (∀ k, shuffleHowMany s.length ≤ k → s'[k]? = s[k]?) ∧
      (shuffleHowMany s.length ≤ 1 → s' = s) := by
  unfold shuffleProducers
  split
  · rename_i h
    obtain ⟨s', r', h1, h2, h3⟩ :=
      shuffleRounds_spec (shuffleHowMany s.length) (by omega) 100 r s (shuffleHowMany_le _ h)
    exact ⟨s', r', h1, h2, h3, fun h' => absurd h (by omega)⟩
  · exact ⟨s, r, rfl, rfl, fun _ _ => rfl, fun _ => rfl⟩


theorem accountVariation_eq (name : GoString) (i : Nat) (h1 : 1 ≤ i) (h2 : i ≤ 159) :
    accountVariation name (i : Int) = name.take 10 ++ [46] ++ [97 + (i - 1)] := by
  unfold accountVariation
  have hname : (if name.length > 10 then name.take 10 else name) = name.take 10 := by
    split
    · rfl
    · rw [List.take_of_length_le (by omega)]
  simp only [hname]
  congr 2
  omega

theorem padLoop_spec (s0 : List Peer) (cloneCount : Nat) (hc0 : 0 < cloneCount)
    (hc : cloneCount < s0.length) :
    ∀ (fuel : Nat) (extra : List Peer) (count : Nat),
      (s0 ++ extra).length ≤ 22 → 22 - (s0 ++ extra).length < fuel →
      ∃ res, padLoop cloneCount fuel (s0 ++ extra) count = some (s0 ++ extra ++ res) ∧
        res.length = 22 - (s0 ++ extra).length ∧
        ∀ j, j < res.length → res[j]? = cloneOf s0 cloneCount (count + j + 1) ∧
          (cloneOf s0 cloneCount (count + j + 1)).isSome := by
  intro fuel
  induction fuel with
  | zero => intro extra count _ h; omega
  | succ n ih =>
    intro extra count hle hfuel
    simp only [padLoop]
    by_cases h22 : (s0 ++ extra).length = 22
    · rw [if_pos h22]
      exact ⟨[], by simp, by simp [h22], by simp⟩
    · rw [if_neg h22]
      have hidx : 1 + count % cloneCount < s0.length := by
        have := Nat.mod_lt count hc0; omega
      have hget : (s0 ++ extra)[1 + count % cloneCount]? = some (s0[1 + count % cloneCount]) := by
        rw [List.getElem?_append_left hidx, List.getElem?_eq_getElem hidx]
      rw [hget]
      simp only
      generalize hcl : (Peer.mk (accountVariation (s0[1 + count % cloneCount]).AccountName
        ((count + 1 : Nat) : Int)) (s0[1 + count % cloneCount]).Discovery) = cl
      have hlen : (s0 ++ (extra ++ [cl])).length = (s0 ++ extra).length + 1 := by
        simp only [List.length_append, List.length_singleton]; omega
      obtain ⟨res, hres, hreslen, hresget⟩ := ih (extra ++ [cl]) (count + 1)
          (by rw [hlen]; omega) (by rw [hlen]; omega)
      rw [List.append_assoc s0 extra, hres]
      refine ⟨cl :: res, by simp, by simp only [List.length_cons, hreslen, hlen]; omega, ?_⟩
      intro j hj
      cases j with
      | zero =>
        simp only [List.getElem?_cons_zero, cloneOf, Nat.add_zero, Nat.add_sub_cancel,
          List.getElem?_eq_getElem hidx, Option.map_some', Option.isSome_some, and_self, hcl]
      | succ k =>
        have := hresget k (by simpa using hj)
        simp only [List.getElem?_cons_succ]
        have e : count + 1 + k + 1 = count + (k + 1) + 1 := by omega
        rw [← e]
        exact this


theorem ceil_quarter (n : Nat) : (n + 3) / 4 = ⌈(n : ℚ) / 4⌉₊ := by
  apply le_antisymm
  · have h : (n : ℚ) / 4 ≤ (⌈(n : ℚ) / 4⌉₊ : ℚ) := Nat.le_ceil _
    have h2 : (n : ℚ) ≤ 4 * (⌈(n : ℚ) / 4⌉₊ : ℚ) := by linarith
    have h3 : n ≤ 4 * ⌈(n : ℚ) / 4⌉₊ := by exact_mod_cast h2
    omega
  · rw [Nat.ceil_le]
    have : n ≤ 4 * ((n + 3) / 4) := by omega
    have h2 : (n : ℚ) ≤ 4 * (((n + 3) / 4 : Nat) : ℚ) := by exact_mod_cast this
    linarith

theorem shuffleStep_spec (orderedPeers : List Peer) (randSource : Option RandSource) :
    ∃ s r, shuffleStep orderedPeers randSource = some (s, r) ∧
      s.length = orderedPeers.length := by
  cases randSource with
  | none => exact ⟨orderedPeers, none, rfl, rfl⟩
  | some r0 =>
    obtain ⟨s1, r1, h1, h2, _⟩ := shuffleProducers_spec orderedPeers r0
    exact ⟨s1, some r1, by simp [shuffleStep, h1], h2⟩

theorem setProducers_nopad (fuel : Nat) (orderedPeers : List Peer)
    (randSource : Option RandSource)
    (h : orderedPeers.length ≤ 1 ∨ 22 ≤ orderedPeers.length) :
    ∃ s r, shuffleStep orderedPeers randSource = some (s, r) ∧
      s.length = orderedPeers.length ∧
      setProducers fuel orderedPeers randSource = some (s, r) := by
  obtain ⟨s, r, h1, h2⟩ := shuffleStep_spec orderedPeers randSource
  refine ⟨s, r, h1, h2, ?_⟩
  simp only [setProducers, h1, h2]
  rcases h with h | h
  · rw [if_neg (by omega)]
  · rw [if_pos (by omega), if_neg (by omega)]

theorem setProducers_pad (fuel : Nat) (orderedPeers : List Peer)
    (randSource : Option RandSource) (hn : 2 ≤ orderedPeers.length)
    (hn22 : orderedPeers.length < 22) (hfuel : 21 ≤ fuel) :
    ∃ s r res, shuffleStep orderedPeers randSource = some (s, r) ∧
      s.length = orderedPeers.length ∧
      setProducers fuel orderedPeers randSource = some (s ++ res, r) ∧
      res.length = 22 - orderedPeers.length ∧
      ∀ j, j < res.length → res[j]? = cloneOf s (orderedPeers.length - 1) (j + 1) ∧
        (cloneOf s (orderedPeers.length - 1) (j + 1)).isSome := by
  obtain ⟨s, r, h1, h2⟩ := shuffleStep_spec orderedPeers randSource
  obtain ⟨res, hres, hlen, hget⟩ := padLoop_spec s (orderedPeers.length - 1) (by omega)
    (by omega) fuel [] 0 (by simp only [List.append_nil]; omega)
    (by simp only [List.append_nil]; omega)
  simp only [List.append_nil] at hres hlen
  refine ⟨s, r, res, h1, h2, ?_, by omega, ?_⟩
  · simp only [setProducers, h1]
    rw [if_pos (by omega), if_pos (by omega), h2, hres]
    rfl
  · intro j hj
    have := hget j hj
    simpa only [Nat.zero_add] using this

/-! ## Roster length (C1) -/

/-- C1, as stated, fails: with 23 ordered candidate peers and no seed, `setProducers`
returns a roster of length 23, so no roster of length 22 comes out although `n >= 2`. -/
theorem setProducers_length_counterexample :
    2 ≤ peers23.length ∧
      setProducers 21 peers23 none = some (peers23, none) ∧
      ¬ ∃ roster r, setProducers 21 peers23 none = some (roster, r) ∧ roster.length = 22 := by
  have h : setProducers 21 peers23 none = some (peers23, none) := rfl
  refine ⟨by decide, h, ?_⟩
  rintro ⟨roster, r, hr, hlen⟩
  rw [h] at hr
  injection hr with hr
  injection hr with hr1 _
  subst hr1
  revert hlen
  decide

/-- C1, amended: for every list of `n` ordered candidate peers and every seed (present or
absent), `setProducers` returns a roster, of length exactly 22 when `2 <= n <= 22`, of
length `n` (neither padded nor truncated) when `n > 22`, and of length 1 when `n = 1`. -/
theorem setProducers_length (fuel : Nat) (orderedPeers : List Peer)
    (randSource : Option RandSource) (hfuel : 21 ≤ fuel) :
    ∃ roster r, setProducers fuel orderedPeers randSource = some (roster, r) ∧
      (2 ≤ orderedPeers.length → orderedPeers.length ≤ 22 → roster.length = 22) ∧
      (22 < orderedPeers.length → roster.length = orderedPeers.length) ∧
      (orderedPeers.length = 1 → roster.length = 1) := by
  by_cases hpad : 2 ≤ orderedPeers.length ∧ orderedPeers.length < 22
  · obtain ⟨s, r, res, _, h2, h3, h4, _⟩ :=
      setProducers_pad fuel orderedPeers randSource hpad.1 hpad.2 hfuel
    refine ⟨s ++ res, r, h3, ?_, ?_, ?_⟩
    · intro _ _
      rw [List.length_append, h2, h4]
      omega
    · intro h; omega
    · intro h; omega
  · obtain ⟨s, r, _, h2, h3⟩ :=
      setProducers_nopad fuel orderedPeers randSource (by omega)
    refine ⟨s, r, h3, ?_, ?_, ?_⟩
    · intro _ _; omega
    · intro _; exact h2
    · intro h; omega

/-- The amended C1 at three peers and a seeded source, with fuel 21. -/
theorem setProducers_length_witness :
    21 ≤ 21 ∧
      ∃ roster r, setProducers 21 peers3 (some sourceSwap01) = some (roster, r) ∧
        (2 ≤ peers3.length → peers3.length ≤ 22 → roster.length = 22) ∧
        (22 < peers3.length → roster.length = peers3.length) ∧
        (peers3.length = 1 → roster.length = 1) :=
  ⟨by decide, setProducers_length 21 peers3 (some sourceSwap01) (by decide)⟩

/-! ## Clones (C2) -/

/-- C2: for `2 <= n < 22` candidates, `setProducers` returns a roster of 22 entries whose
first `n` are the roster left by the shuffle step, and for every `i` in `1..22-n` the
entry at index `n+i-1` is a clone of the entry at index `1 + ((i-1) mod (n-1))`, an
index between 1 and `n-1`: it has that peer's discovery record and, as clone name, that
peer's account name cut to 10 bytes, then `.`, then the letter `'a'+i-1`. For `n = 3`
index `3+j` is a clone of index `1 + j mod 2`. -/
theorem setProducers_clones (fuel : Nat) (orderedPeers : List Peer)
    (randSource : Option RandSource) (hn : 2 ≤ orderedPeers.length)
    (hn22 : orderedPeers.length < 22) (hfuel : 21 ≤ fuel) :
    ∃ s r roster, shuffleStep orderedPeers randSource = some (s, r) ∧
      setProducers fuel orderedPeers randSource = some (roster, r) ∧
      roster.length = 22 ∧ roster.take orderedPeers.length = s ∧
      (∀ i, 1 ≤ i → i ≤ 22 - orderedPeers.length →
        1 ≤ 1 + (i - 1) % (orderedPeers.length - 1) ∧
        1 + (i - 1) % (orderedPeers.length - 1) ≤ orderedPeers.length - 1 ∧
        ∃ src, roster[1 + (i - 1) % (orderedPeers.length - 1)]? = some src ∧
          roster[orderedPeers.length + i - 1]? = some
            { ClonedAccountName := src.AccountName.take 10 ++ [46] ++ [97 + (i - 1)],
              Discovery := src.Discovery }) ∧
      (orderedPeers.length = 3 → ∀ j, j < 19 →
        ∃ src, roster[1 + j % 2]? = some src ∧
          roster[3 + j]? = some
            { ClonedAccountName := src.AccountName.take 10 ++ [46] ++ [97 + j],
              Discovery := src.Discovery }) := by
  obtain ⟨s, r, res, h1, h2, h3, h4, h5⟩ :=
    setProducers_pad fuel orderedPeers randSource hn hn22 hfuel
  have key : ∀ i, 1 ≤ i → i ≤ 22 - orderedPeers.length →
      1 ≤ 1 + (i - 1) % (orderedPeers.length - 1) ∧
      1 + (i - 1) % (orderedPeers.length - 1) ≤ orderedPeers.length - 1 ∧
      ∃ src, (s ++ res)[1 + (i - 1) % (orderedPeers.length - 1)]? = some src ∧
        (s ++ res)[orderedPeers.length + i - 1]? = some
          { ClonedAccountName := src.AccountName.take 10 ++ [46] ++ [97 + (i - 1)],
            Discovery := src.Discovery } := by
    intro i hi1 hi2
    have hmod : (i - 1) % (orderedPeers.length - 1) < orderedPeers.length - 1 :=
      Nat.mod_lt _ (by omega)
    have hidx : 1 + (i - 1) % (orderedPeers.length - 1) < s.length := by omega
    refine ⟨by omega, by omega, s[1 + (i - 1) % (orderedPeers.length - 1)], ?_, ?_⟩
    · rw [List.getElem?_append_left hidx, List.getElem?_eq_getElem hidx]
    · have hj := (h5 (i - 1) (by omega)).1
      have e1 : i - 1 + 1 = i := by omega
      rw [e1] at hj
      have e2 : orderedPeers.length + i - 1 = s.length + (i - 1) := by omega
      rw [e2, List.getElem?_append_right (by omega), Nat.add_sub_cancel_left, hj]
      simp only [cloneOf, List.getElem?_eq_getElem hidx, Option.map_some']
      rw [accountVariation_eq _ i hi1 (by omega)]
  refine ⟨s, r, s ++ res, h1, h3, ?_, ?_, key, ?_⟩
  · rw [List.length_append, h2, h4]; omega
  · rw [← h2, List.take_left]
  · intro h3len j hj
    obtain ⟨_, _, src, hs1, hs2⟩ := key (j + 1) (by omega) (by omega)
    refine ⟨src, ?_, ?_⟩
    · simpa only [h3len, Nat.add_sub_cancel] using hs1
    · have e : orderedPeers.length + (j + 1) - 1 = 3 + j := by omega
      rw [e] at hs2
      simpa only [Nat.add_sub_cancel] using hs2

/-- C2 at the three peers `a`, `b`, `c` without a seed, with fuel 21. -/
theorem setProducers_clones_witness :
    2 ≤ peers3.length ∧ peers3.length < 22 ∧ 21 ≤ 21 ∧
    ∃ s r roster, shuffleStep peers3 none = some (s, r) ∧
      setProducers 21 peers3 none = some (roster, r) ∧
      roster.length = 22 ∧ roster.take peers3.length = s ∧
      (∀ i, 1 ≤ i → i ≤ 22 - peers3.length →
        1 ≤ 1 + (i - 1) % (peers3.length - 1) ∧
        1 + (i - 1) % (peers3.length - 1) ≤ peers3.length - 1 ∧
        ∃ src, roster[1 + (i - 1) % (peers3.length - 1)]? = some src ∧
          roster[peers3.length + i - 1]? = some
            { ClonedAccountName := src.AccountName.take 10 ++ [46] ++ [97 + (i - 1)],
              Discovery := src.Discovery }) ∧
      (peers3.length = 3 → ∀ j, j < 19 →
        ∃ src, roster[1 + j % 2]? = some src ∧
          roster[3 + j]? = some
            { ClonedAccountName := src.AccountName.take 10 ++ [46] ++ [97 + j],
              Discovery := src.Discovery }) :=
  ⟨by decide, by decide, by decide,
    setProducers_clones 21 peers3 none (by decide) (by decide) (by decide)⟩

/-! ## Shuffle locality (C4) -/

/-- C4: for every roster of `n` peers and every random source, `shuffleProducers` returns
a roster of the same length in which every index `>= k` holds its pre-shuffle value,
where `k = min(ceil(n/4), 5)`; `k <= 1` exactly when `n <= 4`, and then the roster is
returned unchanged. -/
theorem shuffleProducers_locality (s : List Peer) (r : RandSource) :
    shuffleHowMany s.length = min ⌈(s.length : ℚ) / 4⌉₊ 5 ∧
    (shuffleHowMany s.length ≤ 1 ↔ s.length ≤ 4) ∧
    ∃ s1 r1, shuffleProducers s r = some (s1, r1) ∧ s1.length = s.length ∧
      (∀ i, shuffleHowMany s.length ≤ i → s1[i]? = s[i]?) ∧
      (shuffleHowMany s.length ≤ 1 → s1 = s) := by
  refine ⟨?_, ?_, shuffleProducers_spec s r⟩
  · unfold shuffleHowMany
    rw [ceil_quarter]
  · unfold shuffleHowMany
    omega

/-! ## Lemmas on chunking -/

theorem chunkLoop_flatten {α : Type} (chunkSize : Int) :
    ∀ (actions : List α) (out : List (List α)) (cur : List α),
      (chunkLoop chunkSize actions out cur).1.flatten ++ (chunkLoop chunkSize actions out cur).2
        = out.flatten ++ cur ++ actions := by
  intro actions
  induction actions with
  | nil => intro out cur; simp [chunkLoop]
  | cons act rest ih =>
    intro out cur
    simp only [chunkLoop]
    split
    · rw [ih]; simp
    · rw [ih]; simp

theorem chunkLoop_nonempty {α : Type} (chunkSize : Int) (h0 : 0 ≤ chunkSize) :
    ∀ (actions : List α) (out : List (List α)) (cur : List α),
      (∀ ch ∈ out, ch ≠ []) →
      ∀ ch ∈ (chunkLoop chunkSize actions out cur).1, ch ≠ [] := by
  intro actions
  induction actions with
  | nil => intro out cur h; simpa [chunkLoop] using h
  | cons act rest ih =>
    intro out cur h
    simp only [chunkLoop]
    split
    · rename_i hgt
      apply ih
      intro ch hch
      rcases List.mem_append.mp hch with h1 | h1
      · exact h ch h1
      · rw [List.mem_singleton] at h1
        subst h1
        intro hnil
        rw [hnil] at hgt
        simp at hgt
        omega
    · exact ih _ _ h

theorem chunkLoop_sizes {α : Type} (c : Nat) :
    ∀ (actions : List α) (out : List (List α)) (cur : List α),
      cur.length ≤ c + 1 → (∀ ch ∈ out, ch.length = c + 1) →
      (∀ ch ∈ (chunkLoop (c : Int) actions out cur).1, ch.length = c + 1) ∧
      (chunkLoop (c : Int) actions out cur).2.length ≤ c + 1 ∧
      (actions ≠ [] → (chunkLoop (c : Int) actions out cur).2 ≠ []) := by
  intro actions
  induction actions with
  | nil => intro out cur hcur hout; exact ⟨by simpa [chunkLoop] using hout, by simpa [chunkLoop] using hcur, by simp⟩
  | cons act rest ih =>
    intro out cur hcur hout
    simp only [chunkLoop]
    split
    · rename_i hgt
      have hlen : cur.length = c + 1 := by omega
      obtain ⟨h1, h2, h3⟩ := ih (out ++ [cur]) ([] ++ [act]) (by simp) (by
        intro ch hch
        rcases List.mem_append.mp hch with h | h
        · exact hout ch h
        · rw [List.mem_singleton] at h; rw [h]; exact hlen)
      refine ⟨h1, h2, fun _ => ?_⟩
      cases rest with
      | nil => simp [chunkLoop]
      | cons a r => exact h3 (by simp)
    · rename_i hgt
      have hlen : cur.length ≤ c := by omega
      obtain ⟨h1, h2, h3⟩ := ih out (cur ++ [act]) (by simp; omega) hout
      refine ⟨h1, h2, fun _ => ?_⟩
      cases rest with
      | nil => simp [chunkLoop]
      | cons a r => exact h3 (by simp)

theorem flatten_length_const {α : Type} (n : Nat) :
    ∀ (L : List (List α)), (∀ ch ∈ L, ch.length = n) → L.flatten.length = n * L.length := by
  intro L
  induction L with
  | nil => intro _; simp
  | cons a t ih =>
    intro h
    rw [List.flatten_cons, List.length_append, h a (List.mem_cons_self _ _),
      ih (fun ch hch => h ch (List.mem_cons_of_mem _ hch)), List.length_cons, Nat.mul_succ]
    omega

theorem chunkifyActions_eq {α : Type} (actions : List α) (chunkSize : Int) :
    chunkifyActions actions chunkSize =
      if (chunkLoop chunkSize actions [] []).2.length > 0 then
        (chunkLoop chunkSize actions [] []).1 ++ [(chunkLoop chunkSize actions [] []).2]
      else (chunkLoop chunkSize actions [] []).1 := by
  unfold chunkifyActions
  rfl

theorem chunkifyActions_shape {α : Type} (c : Nat) (actions : List α) :
    (∀ i, i + 1 < (chunkifyActions actions (c : Int)).length →
      ∃ ch, (chunkifyActions actions (c : Int))[i]? = some ch ∧ ch.length = c + 1) ∧
    ∃ q r, actions.length = (c + 1) * q + r ∧ r ≤ c + 1 ∧
      ((r = 0 ∧ q = 0 ∧ chunkifyActions actions (c : Int) = []) ∨
        (0 < r ∧ (chunkifyActions actions (c : Int)).length = q + 1)) := by
  obtain ⟨h1, h2, h3⟩ := chunkLoop_sizes c actions [] [] (by simp) (by simp)
  have hflat := chunkLoop_flatten (c : Int) actions [] []
  have hlen := congrArg List.length hflat
  rw [List.length_append, flatten_length_const (c + 1) _ h1] at hlen
  simp only [List.flatten_nil, List.nil_append, List.length_nil] at hlen
  rw [chunkifyActions_eq]
  by_cases hcur : (chunkLoop (c : Int) actions [] []).2.length > 0
  · rw [if_pos hcur]
    constructor
    · intro i hi
      rw [List.length_append, List.length_singleton] at hi
      have hi2 : i < (chunkLoop (c : Int) actions [] []).1.length := by omega
      refine ⟨(chunkLoop (c : Int) actions [] []).1[i], ?_, ?_⟩
      · rw [List.getElem?_append_left hi2, List.getElem?_eq_getElem hi2]
      · exact h1 _ (List.getElem_mem _)
    · refine ⟨(chunkLoop (c : Int) actions [] []).1.length,
        (chunkLoop (c : Int) actions [] []).2.length, ?_, h2, Or.inr ⟨hcur, by simp⟩⟩
      omega
  · rw [if_neg hcur]
    have hnil : (chunkLoop (c : Int) actions [] []).2 = [] := by
      apply List.eq_nil_of_length_eq_zero; omega
    have hact : actions = [] := by
      by_contra hne
      exact h3 hne hnil
    subst hact
    refine ⟨by simp [chunkLoop], 0, 0, by simp, by omega, Or.inl ⟨rfl, rfl, by simp [chunkLoop]⟩⟩

theorem ceil_div_401 (n : Nat) : (n + 400) / 401 = ⌈(n : ℚ) / 401⌉₊ := by
  apply le_antisymm
  · have h : (n : ℚ) / 401 ≤ (⌈(n : ℚ) / 401⌉₊ : ℚ) := Nat.le_ceil _
    have h2 : (n : ℚ) ≤ 401 * (⌈(n : ℚ) / 401⌉₊ : ℚ) := by linarith
    have h3 : n ≤ 401 * ⌈(n : ℚ) / 401⌉₊ := by exact_mod_cast h2
    omega
  · rw [Nat.ceil_le]
    have : n ≤ 401 * ((n + 400) / 401) := by omega
    have h2 : (n : ℚ) ≤ 401 * (((n + 400) / 401 : Nat) : ℚ) := by exact_mod_cast this
    linarith

/-! ## Chunk count (C5) -/

/-- C5: for every list of `m` actions, `chunkifyActions(actions, 400)` returns exactly
`ceil(m/401)` chunks (none for `m = 0`), and every chunk other than the last holds
exactly 401 actions. -/
theorem chunkifyActions_count {α : Type} (actions : List α) :
    (chunkifyActions actions 400).length = ⌈(actions.length : ℚ) / 401⌉₊ ∧
    (actions.length = 0 → chunkifyActions actions 400 = []) ∧
    ∀ i, i + 1 < (chunkifyActions actions 400).length →
      ∃ chunk, (chunkifyActions actions 400)[i]? = some chunk ∧ chunk.length = 401 := by
  obtain ⟨h1, q, r, hqr, hr, hcase⟩ := chunkifyActions_shape 400 actions
  simp only [Nat.cast_ofNat] at h1 hcase
  refine ⟨?_, ?_, h1⟩
  · rw [← ceil_div_401]
    rcases hcase with ⟨hr0, hq0, hnil⟩ | ⟨hr0, hlen⟩
    · rw [hnil]; simp only [List.length_nil]; omega
    · rw [hlen]; omega
  · intro hm
    rcases hcase with ⟨_, _, hnil⟩ | ⟨hr0, _⟩
    · exact hnil
    · omega

/-- C5 at a list of three actions: one chunk. -/
theorem chunkifyActions_count_witness :
    (chunkifyActions [0, 1, 2] 400).length = ⌈(([0, 1, 2].length : ℕ) : ℚ) / 401⌉₊ ∧
    ([0, 1, 2].length = 0 → chunkifyActions [0, 1, 2] 400 = []) ∧
    ∀ i, i + 1 < (chunkifyActions [0, 1, 2] 400).length →
      ∃ chunk, (chunkifyActions [0, 1, 2] 400)[i]? = some chunk ∧ chunk.length = 401 :=
  chunkifyActions_count [0, 1, 2]

/-! ## Chunks partition the input (C10) -/

/-- C10: for every action list and every chunk size `>= 0`, concatenating the chunks of
`chunkifyActions` in order gives back exactly the input list, and no chunk is empty. -/
theorem chunkifyActions_partition {α : Type} (actions : List α) (chunkSize : Int)
    (h0 : 0 ≤ chunkSize) :
    (chunkifyActions actions chunkSize).flatten = actions ∧
    ∀ chunk ∈ chunkifyActions actions chunkSize, chunk ≠ [] := by
  have hflat := chunkLoop_flatten chunkSize actions [] []
  have hne := chunkLoop_nonempty chunkSize h0 actions [] [] (by simp)
  simp only [List.flatten_nil, List.nil_append] at hflat
  rw [chunkifyActions_eq]
  by_cases hcur : (chunkLoop chunkSize actions [] []).2.length > 0
  · rw [if_pos hcur]
    constructor
    · rw [List.flatten_append, List.flatten_singleton, hflat]
    · intro chunk hch
      rcases List.mem_append.mp hch with h | h
      · exact hne chunk h
      · rw [List.mem_singleton] at h
        rw [h]
        exact List.ne_nil_of_length_pos hcur
  · rw [if_neg hcur]
    have hnil : (chunkLoop chunkSize actions [] []).2 = [] := by
      apply List.eq_nil_of_length_eq_zero; omega
    rw [hnil, List.append_nil] at hflat
    exact ⟨hflat, hne⟩

/-- C10 at seven actions and chunk size 2: the chunks are `[0,1,2]`, `[3,4,5]`, `[6]`. -/
theorem chunkifyActions_partition_witness :
    (0 : Int) ≤ 2 ∧
    (chunkifyActions [0, 1, 2, 3, 4, 5, 6] 2).flatten = [0, 1, 2, 3, 4, 5, 6] ∧
    ∀ chunk ∈ chunkifyActions [0, 1, 2, 3, 4, 5, 6] 2, chunk ≠ [] :=
  ⟨by decide, chunkifyActions_partition [0, 1, 2, 3, 4, 5, 6] 2 (by decide)⟩

/-! ## Appointed block producers (C6) -/

theorem abpLoop_iff (s : List Peer) (account : GoString) :
    ∀ (left i : Nat), 22 - i ≤ left →
      (abpLoop s account left i = true ↔
        ∃ j p, i ≤ j ∧ j < 22 ∧ s[j]? = some p ∧ p.Discovery.EOSIOAccountName = account) := by
  intro left
  induction left with
  | zero =>
    intro i hi
    simp only [abpLoop, Bool.false_eq_true, false_iff]
    rintro ⟨j, p, h1, h2, _⟩
    omega
  | succ n ih =>
    intro i hi
    simp only [abpLoop]
    by_cases hc : i < 22 ∧ s.length > i
    · rw [dif_pos hc]
      by_cases hm : s[i].Discovery.EOSIOAccountName = account
      · rw [if_pos hm]
        simp only [true_iff]
        exact ⟨i, s[i], le_refl _, hc.1, List.getElem?_eq_getElem hc.2, hm⟩
      · rw [if_neg hm, ih (i + 1) (by omega)]
        constructor
        · rintro ⟨j, p, h1, h2, h3, h4⟩
          exact ⟨j, p, by omega, h2, h3, h4⟩
        · rintro ⟨j, p, h1, h2, h3, h4⟩
          refine ⟨j, p, ?_, h2, h3, h4⟩
          by_contra hlt
          have hji : j = i := by omega
          subst hji
          rw [List.getElem?_eq_getElem hc.2] at h3
          injection h3 with h3
          subst h3
          exact hm h4
    · rw [dif_neg hc]
      simp only [Bool.false_eq_true, false_iff]
      rintro ⟨j, p, h1, h2, h3, _⟩
      have hj : j < s.length := by
        by_contra hge
        rw [List.getElem?_eq_none (by omega)] at h3
        exact Option.noConfusion h3
      omega

/-- C6, as stated, fails: in the roster built from the peers `a` and `b`, index 2 holds
the clone whose `AccountName()` is `b.a`, yet `IsAppointedBlockProducer("b.a")` is false. -/
theorem IsAppointedBlockProducer_counterexample :
    ¬ (IsAppointedBlockProducer roster2 [98, 46, 97] = true ↔
        ∃ i p, 1 ≤ i ∧ i ≤ min 21 (roster2.length - 1) ∧ roster2[i]? = some p ∧
          p.AccountName = [98, 46, 97]) := by
  intro h
  have hfalse : IsAppointedBlockProducer roster2 [98, 46, 97] = false := by decide
  have hex : ∃ i p, 1 ≤ i ∧ i ≤ min 21 (roster2.length - 1) ∧ roster2[i]? = some p ∧
      p.AccountName = [98, 46, 97] :=
    ⟨2, ⟨[98, 46, 97], ⟨[98], []⟩⟩, by decide, by decide, by decide, by decide⟩
  rw [h.mpr hex] at hfalse
  exact Bool.noConfusion hfalse

/-- C6, amended: for every roster and every account name, `IsAppointedBlockProducer(name)`
is true if and only if `name` equals the account name declared in the discovery record
(`Discovery.EOSIOAccountName`, which for a clone is the name of the peer it was cloned
from) of some roster entry at an index `i` with `1 <= i <= min(21, len-1)`. -/
theorem IsAppointedBlockProducer_iff (shuffledProducers : List Peer) (account : GoString) :
    IsAppointedBlockProducer shuffledProducers account = true ↔
      ∃ i p, 1 ≤ i ∧ i ≤ min 21 (shuffledProducers.length - 1) ∧
        shuffledProducers[i]? = some p ∧ p.Discovery.EOSIOAccountName = account := by
  unfold IsAppointedBlockProducer
  rw [abpLoop_iff shuffledProducers account 22 1 (by omega)]
  constructor
  · rintro ⟨j, p, h1, h2, h3, h4⟩
    have hj : j < shuffledProducers.length := by
      by_contra hge
      rw [List.getElem?_eq_none (by omega)] at h3
      exact Option.noConfusion h3
    exact ⟨j, p, h1, by omega, h3, h4⟩
  · rintro ⟨j, p, h1, h2, h3, h4⟩
    exact ⟨j, p, h1, by omega, h3, h4⟩

/-! ## The roster at role dispatch (C3) -/

theorem orchestratePrepare_keeps_roster {α : Type} (env : Env α) (fuel : Nat) (b b1 : BIOS α)
    (w w1 : World α) (h : orchestratePrepare env fuel b w = Except.ok (b1, w1)) :
    b1.ShuffledProducers = b.ShuffledProducers := by
  unfold orchestratePrepare at h
  rcases hw : waitEthereumBlock env fuel w with ⟨_ | source, w2⟩
  · simp [hw] at h
  · cases hu : env.UpdateGraph b.Network with
    | none => simp [hw, hu] at h
    | some network =>
      by_cases hd : env.dispatch Hook.init = false
      · simp [hw, hu, hd] at h
      · simp [hw, hu, hd] at h
        rw [← h.1]

/-- C3 fails on the code: with the five peers `a` to `e`, the local peer `b`, `Init` run
before the entropy is known and a seed whose shuffle swaps indices 0 and 1,
`StartOrchestrate` resolves the role against the roster `Init` left (unshuffled, `b` at
index 1) and gets `RoleABP`; on the roster rebuilt by `setProducers` with the seed, `b`
is at index 0 and the role is `RoleBootNode`. -/
theorem StartOrchestrate_resolves_on_stale_roster :
    (biosFive.ShuffledProducers.map Peer.AccountName).take 2 = [[97], [98]] ∧
    roleAtDispatch envQuiet 21 biosFive World.start = some Role.RoleABP ∧
    (rosterRebuilt envQuiet 21 biosFive World.start).map
      (fun roster => (roster.map Peer.AccountName).take 2) = some [[98], [97]] ∧
    (rosterRebuilt envQuiet 21 biosFive World.start).bind
      (fun roster => MyRole roster (peerNamed 1)) = some Role.RoleBootNode := by
  refine ⟨by decide, by decide, by decide, by decide⟩

/-! ## Waiting for the genesis data (C8) -/

/-- C8 fails on the code: the first pasted line `x` does not parse (`readGenesisData`
gives a nil pointer and an error) and the second line `g` would parse, yet
`waitOnGenesisData` returns after the first line, with the nil pointer of the failed
parse. -/
theorem waitOnGenesisData_returns_failed_parse :
    envBadGenesis.ScanSingleLine 0 = some [120] ∧
    envBadGenesis.readGenesisData [120] = (none, true) ∧
    envBadGenesis.ScanSingleLine 1 = some [103] ∧
    envBadGenesis.readGenesisData [103] = (some genesisG, false) ∧
    (waitOnGenesisData envBadGenesis 5 biosFive World.start).map
      (fun p => (p.1, p.2.lines)) = some (some none, 1) := by
  refine ⟨by decide, by decide, by decide, by decide, by decide⟩

/-! ## Boot-sequence executor (C9) -/

theorem cutAfterFirstFailure_of_allPushed {α : Type} (ok : Nat → List α → Bool) :
    ∀ (a : List (List α)) (n : Nat), allPushed ok n a = true →
      cutAfterFirstFailure ok n a = a := by
  intro a
  induction a with
  | nil => intro n _; rfl
  | cons c t ih =>
    intro n h
    simp only [allPushed, Bool.and_eq_true] at h
    simp only [cutAfterFirstFailure, h.1, if_true, ih (n + 1) h.2]

theorem allPushed_append {α : Type} (ok : Nat → List α → Bool) :
    ∀ (a b : List (List α)) (n : Nat),
      allPushed ok n (a ++ b) = (allPushed ok n a && allPushed ok (n + a.length) b) := by
  intro a
  induction a with
  | nil => intro b n; simp [allPushed]
  | cons c t ih =>
    intro b n
    have e : n + 1 + t.length = n + (t.length + 1) := by omega
    have ih2 := ih b (n + 1)
    rw [e] at ih2
    rw [List.cons_append]
    simp only [allPushed, List.length_cons]
    rw [ih2, Bool.and_assoc]

theorem cutAfterFirstFailure_append {α : Type} (ok : Nat → List α → Bool) :
    ∀ (a b : List (List α)) (n : Nat),
      cutAfterFirstFailure ok n (a ++ b) =
        if allPushed ok n a = true then a ++ cutAfterFirstFailure ok (n + a.length) b
        else cutAfterFirstFailure ok n a := by
  intro a
  induction a with
  | nil => intro b n; simp [allPushed]
  | cons c t ih =>
    intro b n
    rw [List.cons_append]
    simp only [cutAfterFirstFailure, allPushed, List.length_cons]
    by_cases hc : ok n c = true
    · have e : n + 1 + t.length = n + (t.length + 1) := by omega
      have ih2 := ih b (n + 1)
      rw [e] at ih2
      simp only [hc, if_true, Bool.true_and]
      rw [ih2]
      split <;> rfl
    · simp [hc]

theorem pushChunks_spec {α : Type} (env : Env α) :
    ∀ (chunks : List (List α)) (w : World α),
      (pushChunks env chunks w).1 = allPushed env.SignPushActions w.pushes chunks ∧
      (pushChunks env chunks w).2.trace = w.trace ++
        (cutAfterFirstFailure env.SignPushActions w.pushes chunks).map Event.signPushActions ∧
      (pushChunks env chunks w).2.pushes =
        w.pushes + (cutAfterFirstFailure env.SignPushActions w.pushes chunks).length := by
  intro chunks
  induction chunks with
  | nil => intro w; simp [pushChunks, allPushed, cutAfterFirstFailure]
  | cons c t ih =>
    intro w
    simp only [pushChunks, allPushed, cutAfterFirstFailure]
    by_cases hc : env.SignPushActions w.pushes c = true
    · simp only [hc, if_true, Bool.true_and]
      obtain ⟨h1, h2, h3⟩ := ih { w.log (Event.signPushActions c) with pushes := w.pushes + 1 }
      refine ⟨h1, ?_, ?_⟩
      · rw [h2]; simp [World.log]
      · rw [h3]; simp only [List.length_cons]; omega
    · simp [hc, World.log]

theorem bootSteps_spec {α : Type} (env : Env α) (core : BIOSCore) :
    ∀ (steps : List (OperationType α)) (w : World α),
      (∀ step ∈ steps, (step.Actions core).isSome = true) →
      (bootSteps env core steps w).1 =
        (if allPushed env.SignPushActions w.pushes (bootChunks core steps) = true then none
          else some BiosError.signPushActions) ∧
      (bootSteps env core steps w).2.trace = w.trace ++
        (cutAfterFirstFailure env.SignPushActions w.pushes (bootChunks core steps)).map
          Event.signPushActions := by
  intro steps
  induction steps with
  | nil => intro w _; simp [bootSteps, bootChunks, allPushed, cutAfterFirstFailure]
  | cons step rest ih =>
    intro w hall
    obtain ⟨acts, hacts⟩ := Option.isSome_iff_exists.mp (hall step (List.mem_cons_self _ _))
    have hrest : ∀ s ∈ rest, (s.Actions core).isSome = true :=
      fun s hs => hall s (List.mem_cons_of_mem _ hs)
    have hchunks : bootChunks core (step :: rest) =
        chunkifyActions acts 400 ++ bootChunks core rest := by
      simp [bootChunks, hacts]
    rw [hchunks, allPushed_append, cutAfterFirstFailure_append]
    simp only [bootSteps, hacts]
    obtain ⟨p1, p2, p3⟩ := pushChunks_spec env (chunkifyActions acts 400) w
    by_cases hlen : acts.length ≠ 0
    · rw [if_pos hlen]
      rcases hp : pushChunks env (chunkifyActions acts 400) w with ⟨okAll, w2⟩
      rw [hp] at p1 p2 p3
      simp only at p1 p2 p3
      cases okAll with
      | false =>
        simp only
        rw [← p1]
        simp [p2]
      | true =>
        simp only
        rw [← p1]
        obtain ⟨i1, i2⟩ := ih w2 hrest
        rw [cutAfterFirstFailure_of_allPushed _ _ _ p1.symm] at p2 p3
        rw [i1, i2, p2, p3]
        simp
    · rw [if_neg hlen]
      have hnil : acts = [] := List.eq_nil_of_length_eq_zero (by omega)
      subst hnil
      have hc : chunkifyActions ([] : List α) 400 = [] := rfl
      obtain ⟨i1, i2⟩ := ih w hrest
      simp only [hc, allPushed, Bool.true_and, List.length_nil, Nat.add_zero, if_true,
        List.nil_append]
      exact ⟨i1, i2⟩

theorem submitted_append {α : Type} (t1 t2 : List (Event α)) :
    submitted (t1 ++ t2) = submitted t1 ++ submitted t2 := by
  simp [submitted, List.filterMap_append]

theorem submitted_map {α : Type} (chunks : List (List α)) :
    submitted (chunks.map Event.signPushActions) = chunks := by
  induction chunks with
  | nil => rfl
  | cons c t ih =>
    simp only [submitted, List.map_cons, List.filterMap_cons] at ih ⊢
    rw [ih]

/-- C9, as stated, fails: in scenario B every operation yields an action list and every
submission would go through, so the chunks cut after the first failure are `[[1, 2, 3]]`;
but the dispatch of the `boot_node` hook returns an error, `RunBootSequence` returns
before its operation loop and submits nothing. -/
theorem RunBootSequence_submits_counterexample :
    (∀ step ∈ biosBoot.BootSequence,
      (step.Actions { biosBoot.toBIOSCore with EphemeralPrivateKey := some keyK }).isSome
        = true) ∧
    cutAfterFirstFailure envBootNodeHookFails.SignPushActions (World.start : World Nat).pushes
      (bootChunks { biosBoot.toBIOSCore with EphemeralPrivateKey := some keyK }
        biosBoot.BootSequence) = [[1, 2, 3]] ∧
    submitted (RunBootSequence envBootNodeHookFails biosBoot World.start).world.trace = [] ∧
    (RunBootSequence envBootNodeHookFails biosBoot World.start).outcome
      = Outcome.returned (some (BiosError.hook Hook.boot_node)) ∧
    ¬ (submitted (RunBootSequence envBootNodeHookFails biosBoot World.start).world.trace
        = cutAfterFirstFailure envBootNodeHookFails.SignPushActions
            (World.start : World Nat).pushes
            (bootChunks { biosBoot.toBIOSCore with EphemeralPrivateKey := some keyK }
              biosBoot.BootSequence)) := by
  refine ⟨by decide, by decide, by decide, by decide, by decide⟩

/-- C9, amended: in a run of `RunBootSequence` that gets to its operation loop (the
ephemeral key is generated, its string has at least seven bytes, the import goes
through, the signer is a key bag, the hooks `boot_publish_genesis` and `boot_node` go
through) and in which every operation yields an action list, the transactions submitted
are, in order, the chunks of `chunkifyActions(acts, 400)` of each operation in document
order, cut off right after the first chunk whose submission fails (all of them when none
fails). An empty action list has no chunk. When a chunk fails, `RunBootSequence` returns
an error and dispatches neither `boot_connect_mesh` nor `boot_publish_handoff`. -/
theorem RunBootSequence_submits {α : Type} (env : Env α) (b : BIOS α) (w : World α)
    (key : PrivateKey) (hkey : env.NewRandomPrivateKey = some key)
    (hlen : 7 ≤ key.wif.length) (himport : env.ImportPrivateKey key.wif = true)
    (hsigner : env.SignerIsKeyBag = true)
    (hgenesis : env.dispatch Hook.boot_publish_genesis = true)
    (hnode : env.dispatch Hook.boot_node = true)
    (hacts : ∀ step ∈ b.BootSequence,
      (step.Actions { b.toBIOSCore with EphemeralPrivateKey := some key }).isSome = true) :
    ∃ new, (RunBootSequence env b w).world.trace = w.trace ++ new ∧
      submitted new = cutAfterFirstFailure env.SignPushActions w.pushes
        (bootChunks { b.toBIOSCore with EphemeralPrivateKey := some key } b.BootSequence) ∧
      (allPushed env.SignPushActions w.pushes
          (bootChunks { b.toBIOSCore with EphemeralPrivateKey := some key } b.BootSequence)
            = true →
        submitted new =
          bootChunks { b.toBIOSCore with EphemeralPrivateKey := some key } b.BootSequence) ∧
      (allPushed env.SignPushActions w.pushes
          (bootChunks { b.toBIOSCore with EphemeralPrivateKey := some key } b.BootSequence)
            = false →
        (RunBootSequence env b w).outcome = Outcome.returned (some BiosError.signPushActions) ∧
        Event.dispatch Hook.boot_connect_mesh ∉ new ∧
        Event.dispatch Hook.boot_publish_handoff ∉ new) ∧
      chunkifyActions ([] : List α) 400 = [] := by
  generalize hcore : ({ b.toBIOSCore with EphemeralPrivateKey := some key } : BIOSCore) = core
    at hacts ⊢
  have hw0 : (((w.log Event.newRandomPrivateKey).log Event.importPrivateKey).log
      (Event.dispatch Hook.boot_publish_genesis)).log (Event.dispatch Hook.boot_node)
      = { w with trace := w.trace ++ [Event.newRandomPrivateKey, Event.importPrivateKey,
          Event.dispatch Hook.boot_publish_genesis, Event.dispatch Hook.boot_node] } := by
    simp [World.log]
  obtain ⟨s1, s2⟩ := bootSteps_spec env core b.BootSequence
    { w with trace := w.trace ++ [Event.newRandomPrivateKey, Event.importPrivateKey,
        Event.dispatch Hook.boot_publish_genesis, Event.dispatch Hook.boot_node] } hacts
  simp only at s1 s2
  have hrun : RunBootSequence env b w =
      (match bootSteps env core b.BootSequence
          { w with trace := w.trace ++ [Event.newRandomPrivateKey, Event.importPrivateKey,
            Event.dispatch Hook.boot_publish_genesis, Event.dispatch Hook.boot_node] } with
        | (some err, w) =>
          (⟨Outcome.returned (some err), { b with EphemeralPrivateKey := some key }, w⟩ : Run α)
        | (none, w) =>
          let w := w.log (Event.dispatch Hook.boot_connect_mesh)
          if env.dispatch Hook.boot_connect_mesh = false then
            ⟨Outcome.returned (some (BiosError.hook Hook.boot_connect_mesh)),
              { b with EphemeralPrivateKey := some key }, w⟩
          else
            let w := w.log (Event.dispatch Hook.boot_publish_handoff)
            if env.dispatch Hook.boot_publish_handoff = false then
              ⟨Outcome.returned (some (BiosError.hook Hook.boot_publish_handoff)),
                { b with EphemeralPrivateKey := some key }, w⟩
            else ⟨Outcome.returned none, { b with EphemeralPrivateKey := some key }, w⟩) := by
    unfold RunBootSequence
    simp only [hkey, himport, hsigner, hgenesis, hnode, Nat.not_lt.mpr hlen, if_false, hw0,
      ← hcore]
    rfl
  rcases hb : bootSteps env core b.BootSequence
      { w with trace := w.trace ++ [Event.newRandomPrivateKey, Event.importPrivateKey,
        Event.dispatch Hook.boot_publish_genesis, Event.dispatch Hook.boot_node] }
    with ⟨err, w2⟩
  rw [hb] at s1 s2 hrun
  simp only at s1 s2 hrun
  have hsub1 : submitted ([Event.newRandomPrivateKey, Event.importPrivateKey,
      Event.dispatch Hook.boot_publish_genesis, Event.dispatch Hook.boot_node] : List (Event α))
      = [] := rfl
  by_cases hall : allPushed env.SignPushActions w.pushes (bootChunks core b.BootSequence) = true
  · rw [if_pos hall] at s1
    subst s1
    simp only at hrun
    have hcut := cutAfterFirstFailure_of_allPushed env.SignPushActions _ _ hall
    have hfin : ∃ tail, (RunBootSequence env b w).world.trace = w2.trace ++ tail ∧
        submitted tail = [] := by
      rw [hrun]
      by_cases hm : env.dispatch Hook.boot_connect_mesh = false
      · exact ⟨[Event.dispatch Hook.boot_connect_mesh], by simp [hm, World.log], rfl⟩
      · by_cases hh : env.dispatch Hook.boot_publish_handoff = false
        · exact ⟨[Event.dispatch Hook.boot_connect_mesh,
            Event.dispatch Hook.boot_publish_handoff], by simp [hm, hh, World.log], rfl⟩
        · exact ⟨[Event.dispatch Hook.boot_connect_mesh,
            Event.dispatch Hook.boot_publish_handoff], by simp [hm, hh, World.log], rfl⟩
    obtain ⟨tail, ht1, ht2⟩ := hfin
    refine ⟨_, by rw [ht1, s2, List.append_assoc, List.append_assoc], ?_, ?_, ?_, rfl⟩
    · rw [submitted_append, submitted_append, hsub1, submitted_map, ht2]
      simp
    · intro _
      rw [submitted_append, submitted_append, hsub1, submitted_map, ht2, hcut]
      simp
    · intro hf
      rw [hall] at hf
      exact Bool.noConfusion hf
  · rw [if_neg hall] at s1
    subst s1
    simp only at hrun
    refine ⟨_, by rw [hrun]; simp only; rw [s2, List.append_assoc], ?_, ?_, ?_, rfl⟩
    · rw [submitted_append, hsub1, submitted_map]
      simp
    · intro h; exact absurd h hall
    · intro _
      refine ⟨by rw [hrun], ?_, ?_⟩
      · simp
      · simp

/-- The amended C9 at scenario B: two operations yielding no action and three actions,
every collaborator answering without error. -/
theorem RunBootSequence_submits_witness :
    envQuiet.NewRandomPrivateKey = some keyK ∧ 7 ≤ keyK.wif.length ∧
    envQuiet.ImportPrivateKey keyK.wif = true ∧
    envQuiet.SignerIsKeyBag = true ∧
    envQuiet.dispatch Hook.boot_publish_genesis = true ∧
    envQuiet.dispatch Hook.boot_node = true ∧
    (∀ step ∈ biosBoot.BootSequence,
      (step.Actions { biosBoot.toBIOSCore with EphemeralPrivateKey := some keyK }).isSome
        = true) ∧
    ∃ new, (RunBootSequence envQuiet biosBoot World.start).world.trace
        = (World.start : World Nat).trace ++ new ∧
      submitted new = cutAfterFirstFailure envQuiet.SignPushActions
        (World.start : World Nat).pushes
        (bootChunks { biosBoot.toBIOSCore with EphemeralPrivateKey := some keyK }
          biosBoot.BootSequence) ∧
      (allPushed envQuiet.SignPushActions (World.start : World Nat).pushes
          (bootChunks { biosBoot.toBIOSCore with EphemeralPrivateKey := some keyK }
            biosBoot.BootSequence) = true →
        submitted new =
          bootChunks { biosBoot.toBIOSCore with EphemeralPrivateKey := some keyK }
            biosBoot.BootSequence) ∧
      (allPushed envQuiet.SignPushActions (World.start : World Nat).pushes
          (bootChunks { biosBoot.toBIOSCore with EphemeralPrivateKey := some keyK }
            biosBoot.BootSequence) = false →
        (RunBootSequence envQuiet biosBoot World.start).outcome
          = Outcome.returned (some BiosError.signPushActions) ∧
        Event.dispatch Hook.boot_connect_mesh ∉ new ∧
        Event.dispatch Hook.boot_publish_handoff ∉ new) ∧
      chunkifyActions ([] : List Nat) 400 = [] :=
  ⟨rfl, by decide, rfl, rfl, rfl, rfl, by decide,
    RunBootSequence_submits envQuiet biosBoot World.start keyK rfl (by decide) rfl rfl rfl rfl
      (by decide)⟩

/-! ## Chain-sync verification in orchestrate mode (C7) -/

theorem pollsEosio_log {α : Type} (w : World α) (e : Event α) :
    pollsEosio (w.log e).trace = (pollsEosio w.trace || pollsEosio [e]) := by
  simp [pollsEosio, World.log]

theorem pollsEosio_append {α : Type} (t1 t2 : List (Event α)) :
    pollsEosio (t1 ++ t2) = (pollsEosio t1 || pollsEosio t2) := by
  simp [pollsEosio]

theorem pollsEosio_map_signPush {α : Type} (chunks : List (List α)) :
    pollsEosio (chunks.map Event.signPushActions) = false := by
  induction chunks with
  | nil => rfl
  | cons c t ih =>
    simp only [pollsEosio, List.map_cons, List.any_cons, Bool.false_or] at ih ⊢
    exact ih

theorem genesisLoop_polls {α : Type} (env : Env α) :
    ∀ (fuel : Nat) (w : World α),
      pollsEosio (genesisLoop env fuel w).2.trace = pollsEosio w.trace := by
  intro fuel
  induction fuel with
  | zero => intro w; rfl
  | succ n ih =>
    intro w
    simp only [genesisLoop]
    cases env.ScanSingleLine w.lines with
    | none =>
      simp only
      rw [ih]
      simp [pollsEosio, World.log]
    | some text => simp [pollsEosio, World.log]

theorem waitOnHandoff_polls {α : Type} (env : Env α) (genesis : Option GenesisJSON) :
    ∀ (fuel : Nat) (w : World α),
      pollsEosio (waitOnHandoff env genesis fuel w).2.trace = pollsEosio w.trace := by
  intro fuel
  induction fuel with
  | zero => intro w; rfl
  | succ n ih =>
    intro w
    have hstep : pollsEosio ({ w.log Event.scanSingleLine with lines := w.lines + 1 } :
        World α).trace = pollsEosio w.trace := by
      simp [pollsEosio, World.log]
    simp only [waitOnHandoff]
    cases env.ScanSingleLine w.lines with
    | none => simp only; rw [ih, hstep]
    | some privKey =>
      simp only
      cases (if [47, 105, 112, 102, 115] <:+: privKey then env.ipfsGet privKey
          else some privKey) with
      | none => simp only; rw [ih, hstep]
      | some fetched =>
        simp only
        cases env.NewPrivateKey (env.TrimSpace fetched) with
        | none => simp only; rw [ih, hstep]
        | some key =>
          simp only
          cases genesis with
          | none => simp only; rw [hstep]
          | some g =>
            simp only
            split
            · rw [hstep]
            · rw [ih, hstep]

theorem verifyLoop_polls {α : Type} (env : Env α) :
    ∀ (fuel : Nat) (w : World α), 0 < fuel →
      pollsEosio (verifyLoop env fuel w).2.trace = true := by
  intro fuel
  induction fuel with
  | zero => intro w h; omega
  | succ n ih =>
    intro w _
    have hmono : ∀ (m : Nat) (v : World α), pollsEosio v.trace = true →
        pollsEosio (verifyLoop env m v).2.trace = true := by
      intro m
      induction m with
      | zero => intro v hv; exact hv
      | succ k ihk =>
        intro v hv
        have hv2 : pollsEosio ({ v.log Event.getAccount with polls := v.polls + 1 } :
            World α).trace = true := by
          simp [pollsEosio, World.log]
        simp only [verifyLoop]
        cases env.GetAccount v.polls with
        | none => exact ihk _ hv2
        | some acct =>
          simp only
          split
          · exact ihk _ hv2
          · exact hv2
    have hw2 : pollsEosio ({ w.log Event.getAccount with polls := w.polls + 1 } :
        World α).trace = true := by
      simp [pollsEosio, World.log]
    simp only [verifyLoop]
    cases env.GetAccount w.polls with
    | none => exact hmono _ _ hw2
    | some acct =>
      simp only
      split
      · exact hmono _ _ hw2
      · exact hw2

theorem pushChunks_polls {α : Type} (env : Env α) (chunks : List (List α)) (w : World α) :
    pollsEosio (pushChunks env chunks w).2.trace = pollsEosio w.trace := by
  rw [(pushChunks_spec env chunks w).2.1, pollsEosio_append, pollsEosio_map_signPush,
    Bool.or_false]

theorem bootSteps_polls {α : Type} (env : Env α) (core : BIOSCore) :
    ∀ (steps : List (OperationType α)) (w : World α),
      pollsEosio (bootSteps env core steps w).2.trace = pollsEosio w.trace := by
  intro steps
  induction steps with
  | nil => intro w; rfl
  | cons step rest ih =>
    intro w
    simp only [bootSteps]
    cases step.Actions core with
    | none => rfl
    | some acts =>
      simp only
      by_cases hlen : acts.length ≠ 0
      · rw [if_pos hlen]
        have hp := pushChunks_polls env (chunkifyActions acts 400) w
        rcases hpc : pushChunks env (chunkifyActions acts 400) w with ⟨okAll, w2⟩
        rw [hpc] at hp
        cases okAll with
        | false => exact hp
        | true => simp only; rw [ih, hp]
      · rw [if_neg hlen, ih]

theorem RunBootSequence_polls {α : Type} (env : Env α) (b : BIOS α) (w : World α) :
    pollsEosio (RunBootSequence env b w).world.trace = pollsEosio w.trace := by
  unfold RunBootSequence
  cases env.NewRandomPrivateKey with
  | none => simp [pollsEosio, World.log]
  | some key =>
    simp only
    split
    · simp [pollsEosio, World.log]
    · split
      · simp [pollsEosio, World.log]
      · split
        · simp [pollsEosio, World.log]
        · split
          · simp [pollsEosio, World.log]
          · split
            · simp [pollsEosio, World.log]
            · have hb := bootSteps_polls env
                ({ b with EphemeralPrivateKey := some key } : BIOS α).toBIOSCore
                ({ b with EphemeralPrivateKey := some key } : BIOS α).BootSequence
                ((((w.log Event.newRandomPrivateKey).log Event.importPrivateKey).log
                  (Event.dispatch Hook.boot_publish_genesis)).log (Event.dispatch Hook.boot_node))
              have hw0 : pollsEosio ((((w.log Event.newRandomPrivateKey).log
                  Event.importPrivateKey).log (Event.dispatch Hook.boot_publish_genesis)).log
                  (Event.dispatch Hook.boot_node)).trace = pollsEosio w.trace := by
                simp [pollsEosio, World.log]
              rw [hw0] at hb
              rcases hbs : bootSteps env
                ({ b with EphemeralPrivateKey := some key } : BIOS α).toBIOSCore
                ({ b with EphemeralPrivateKey := some key } : BIOS α).BootSequence
                ((((w.log Event.newRandomPrivateKey).log Event.importPrivateKey).log
                  (Event.dispatch Hook.boot_publish_genesis)).log (Event.dispatch Hook.boot_node))
                with ⟨err, w2⟩
              rw [hbs] at hb
              simp only at hb
              cases err with
              | some e => exact hb
              | none =>
                simp only
                split
                · simp only [pollsEosio_log, hb]; simp [pollsEosio]
                · split
                  · simp only [pollsEosio_log, hb]; simp [pollsEosio]
                  · simp only [pollsEosio_log, hb]; simp [pollsEosio]

theorem obtainGenesis_polls {α : Type} (env : Env α) (fuel : Nat) (b : BIOS α) (w : World α)
    (x : Option (BIOS α)) (w2 : World α) (h : obtainGenesis env fuel b w = some (x, w2)) :
    pollsEosio w2.trace = pollsEosio w.trace := by
  unfold obtainGenesis at h
  cases hg : b.Genesis with
  | some g =>
    simp only [hg] at h
    injection h with h
    injection h with _ h2
    rw [← h2]
  | none =>
    simp only [hg, waitOnGenesisData] at h
    cases hr : b.ShuffledProducers[0]? with
    | none => simp [hr] at h
    | some p =>
      have hl := genesisLoop_polls env fuel w
      rcases hgl : genesisLoop env fuel w with ⟨res, w3⟩
      rw [hgl] at hl
      simp only [hr, hgl] at h
      cases res with
      | none =>
        simp only at h
        injection h with h
        injection h with _ h2
        rw [← h2]; exact hl
      | some genesis =>
        simp only at h
        injection h with h
        injection h with _ h2
        rw [← h2]; exact hl

theorem RunJoinNetwork_polls {α : Type} (env : Env α) (fuel : Nat) (sabotage : Bool)
    (b : BIOS α) (w : World α) (hw : pollsEosio w.trace = false) :
    pollsEosio (RunJoinNetwork env fuel true sabotage b w).world.trace = true ↔
      (∃ b2 w2, obtainGenesis env fuel b w = some (some b2, w2)) ∧
        env.dispatch Hook.join_network = true ∧ 0 < fuel := by
  unfold RunJoinNetwork
  cases ho : obtainGenesis env fuel b w with
  | none => simp [hw]
  | some res =>
    obtain ⟨x, w2⟩ := res
    have hw2 := obtainGenesis_polls env fuel b w x w2 ho
    rw [hw] at hw2
    cases x with
    | none => simp [hw2]
    | some b2 =>
      simp only
      have hw3 : pollsEosio (w2.log (Event.dispatch Hook.join_network)).trace = false := by
        rw [pollsEosio_log, hw2]; rfl
      by_cases hd : env.dispatch Hook.join_network = false
      · rw [if_pos hd]
        simp only [hw3]
        simp [hd]
      · rw [if_neg hd]
        have hd2 : env.dispatch Hook.join_network = true := by
          cases hdv : env.dispatch Hook.join_network with
          | true => rfl
          | false => exact absurd hdv hd
        simp only [if_true]
        cases fuel with
        | zero =>
          simp only [verifyLoop]
          simp [hw3]
        | succ n =>
          have hv := verifyLoop_polls env (n + 1)
            (w2.log (Event.dispatch Hook.join_network)) (by omega)
          rcases hvl : verifyLoop env (n + 1) (w2.log (Event.dispatch Hook.join_network))
            with ⟨left, w4⟩
          rw [hvl] at hv
          simp only at hv
          cases left with
          | false => simp [hv, hd2]
          | true =>
            simp only
            rw [waitOnHandoff_polls, hv]
            simp [hd2]

theorem waitEthereumBlock_polls {α : Type} (env : Env α) :
    ∀ (fuel : Nat) (w : World α),
      pollsEosio (waitEthereumBlock env fuel w).2.trace = pollsEosio w.trace := by
  intro fuel
  induction fuel with
  | zero => intro w; rfl
  | succ n ih =>
    intro w
    have hstep : pollsEosio ({ w.log Event.pollEthereumClock with clock := w.clock + 1 } :
        World α).trace = pollsEosio w.trace := by
      simp [pollsEosio, World.log]
    simp only [waitEthereumBlock]
    cases env.PollEthereumClock w.clock with
    | none => simp only; rw [ih, hstep]
    | some hash =>
      simp only
      split
      · rw [ih, hstep]
      · cases env.hexDecodeString hash with
        | none => simp only; rw [ih, hstep]
        | some bytes => simp only; rw [hstep]

theorem orchestratePrepare_polls {α : Type} (env : Env α) (fuel : Nat) (b b1 : BIOS α)
    (w w1 : World α) (h : orchestratePrepare env fuel b w = Except.ok (b1, w1)) :
    pollsEosio w1.trace = pollsEosio w.trace := by
  unfold orchestratePrepare at h
  have hp := waitEthereumBlock_polls env fuel w
  rcases hw : waitEthereumBlock env fuel w with ⟨_ | source, w2⟩
  · simp [hw] at h
  · rw [hw] at hp
    simp only at hp
    cases hu : env.UpdateGraph b.Network with
    | none => simp [hw, hu] at h
    | some network =>
      by_cases hd : env.dispatch Hook.init = false
      · simp [hw, hu, hd] at h
      · simp [hw, hu, hd] at h
        rw [← h.2, pollsEosio_log, pollsEosio_log, hp]
        simp [pollsEosio]

theorem StartOrchestrate_polls {α : Type} (env : Env α) (fuel : Nat) (b b1 : BIOS α)
    (w w1 : World α) (role : Role)
    (hprep : orchestratePrepare env fuel b w = Except.ok (b1, w1))
    (hrole : MyRole b1.ShuffledProducers b1.Network.MyPeer = some role) :
    pollsEosio (StartOrchestrate env fuel b w).world.trace =
      pollsEosio (orchestrateDispatch env fuel role b1 w1).world.trace := by
  unfold StartOrchestrate
  simp only [hprep, hrole]
  cases ho : (orchestrateDispatch env fuel role b1 w1).outcome with
  | returned err =>
    cases err with
    | none =>
      simp only
      split
      · simp only [pollsEosio_log]; simp [pollsEosio]
      · simp only [pollsEosio_log]; simp [pollsEosio]
    | some e => rfl
  | panicked => rfl
  | exited => rfl
  | blocked => rfl

/-- C7, as stated, fails: the local peer `w` is last of twenty-three peers, so its role is
`RoleParticipant`, and the run of `StartOrchestrate` polls the `eosio` account all the
same; verification is therefore not performed only when the role is `RoleABP`. -/
theorem StartOrchestrate_participant_verifies :
    roleAtDispatch envQuiet 21 biosLast World.start = some Role.RoleParticipant ∧
    pollsEosio (StartOrchestrate envQuiet 21 biosLast World.start).world.trace = true ∧
    ¬ (pollsEosio (StartOrchestrate envQuiet 21 biosLast World.start).world.trace = true ↔
        roleAtDispatch envQuiet 21 biosLast World.start = some Role.RoleABP) := by
  refine ⟨by decide, by decide, by decide⟩

/-- C7, amended: in orchestrate mode the chain-sync verification (the polling of the
`eosio` account) is performed if and only if the resolved role is not `RoleBootNode` and
the join flow gets as far as the verification step, that is the genesis data is at hand
or obtained and the `join_network` hook goes through. A participant runs
`RunJoinNetwork` with `verify = true`, exactly the run of an appointed block producer;
a boot node never polls. -/
theorem StartOrchestrate_verification {α : Type} (env : Env α) (fuel : Nat) (b b1 : BIOS α)
    (w w1 : World α) (role : Role)
    (hprep : orchestratePrepare env fuel b w = Except.ok (b1, w1))
    (hrole : MyRole b1.ShuffledProducers b1.Network.MyPeer = some role)
    (hw : pollsEosio w.trace = false) :
    (pollsEosio (StartOrchestrate env fuel b w).world.trace = true ↔
      role ≠ Role.RoleBootNode ∧
        (∃ b2 w2, obtainGenesis env fuel b1 w1 = some (some b2, w2)) ∧
        env.dispatch Hook.join_network = true ∧ 0 < fuel) ∧
    orchestrateDispatch env fuel Role.RoleParticipant b1 w1
      = RunJoinNetwork env fuel true false b1 w1 ∧
    orchestrateDispatch env fuel Role.RoleParticipant b1 w1
      = orchestrateDispatch env fuel Role.RoleABP b1 w1 := by
  have hw1 : pollsEosio w1.trace = false := by
    rw [orchestratePrepare_polls env fuel b b1 w w1 hprep, hw]
  refine ⟨?_, rfl, rfl⟩
  rw [StartOrchestrate_polls env fuel b b1 w w1 role hprep hrole]
  cases role with
  | RoleBootNode =>
    simp only [orchestrateDispatch, RunBootSequence_polls, hw1]
    simp
  | RoleABP =>
    simp only [orchestrateDispatch]
    rw [RunJoinNetwork_polls env fuel true b1 w1 hw1]
    simp
  | RoleParticipant =>
    simp only [orchestrateDispatch]
    rw [RunJoinNetwork_polls env fuel false b1 w1 hw1]
    simp

/-- The amended C7 at the participant `w` of twenty-three peers, under `envQuiet`. -/
theorem StartOrchestrate_verification_witness :
    orchestratePrepare envQuiet 21 biosLast World.start
      = Except.ok (biosLastAtSwitch, worldAtSwitch) ∧
    MyRole biosLastAtSwitch.ShuffledProducers biosLastAtSwitch.Network.MyPeer
      = some Role.RoleParticipant ∧
    pollsEosio (World.start : World Nat).trace = false ∧
    (pollsEosio (StartOrchestrate envQuiet 21 biosLast World.start).world.trace = true ↔
      Role.RoleParticipant ≠ Role.RoleBootNode ∧
        (∃ b2 w2, obtainGenesis envQuiet 21 biosLastAtSwitch worldAtSwitch
          = some (some b2, w2)) ∧
        envQuiet.dispatch Hook.join_network = true ∧ 0 < 21) ∧
    orchestrateDispatch envQuiet 21 Role.RoleParticipant biosLastAtSwitch worldAtSwitch
      = RunJoinNetwork envQuiet 21 true false biosLastAtSwitch worldAtSwitch ∧
    orchestrateDispatch envQuiet 21 Role.RoleParticipant biosLastAtSwitch worldAtSwitch
      = orchestrateDispatch envQuiet 21 Role.RoleABP biosLastAtSwitch worldAtSwitch :=
  ⟨rfl, by decide, rfl,
    StartOrchestrate_verification envQuiet 21 biosLast biosLastAtSwitch World.start
      worldAtSwitch Role.RoleParticipant rfl (by decide) rfl⟩

/-! ## The shuffle permutes the roster (C11) -/

theorem cons_set_perm {α : Type} :
    ∀ (t : List α) (j : Nat) (a b : α), t[j]? = some b → (b :: t.set j a).Perm (a :: t) := by
  intro t
  induction t with
  | nil => intro j a b h; simp at h
  | cons c t ih =>
    intro j a b h
    cases j with
    | zero =>
      simp only [List.getElem?_cons_zero, Option.some.injEq] at h
      subst h
      simp only [List.set_cons_zero]
      exact List.Perm.swap _ _ _
    | succ k =>
      simp only [List.getElem?_cons_succ] at h
      simp only [List.set_cons_succ]
      have h1 : (b :: c :: t.set k a).Perm (c :: b :: t.set k a) := List.Perm.swap _ _ _
      have h2 : (c :: b :: t.set k a).Perm (c :: a :: t) := List.Perm.cons c (ih k a b h)
      have h3 : (c :: a :: t).Perm (a :: c :: t) := List.Perm.swap _ _ _
      exact (h1.trans h2).trans h3

theorem set_set_perm_of_getElem? {α : Type} :
    ∀ (l : List α) (i j : Nat) (a b : α), l[i]? = some a → l[j]? = some b →
      ((l.set i b).set j a).Perm l := by
  intro l
  induction l with
  | nil => intro i j a b h; simp at h
  | cons c t ih =>
    intro i j a b hi hj
    cases i with
    | zero =>
      simp only [List.getElem?_cons_zero, Option.some.injEq] at hi
      subst hi
      cases j with
      | zero =>
        simp only [List.set_cons_zero]
        exact List.Perm.refl _
      | succ k =>
        simp only [List.getElem?_cons_succ] at hj
        simp only [List.set_cons_zero, List.set_cons_succ]
        exact cons_set_perm t k c b hj
    | succ m =>
      simp only [List.getElem?_cons_succ] at hi
      cases j with
      | zero =>
        simp only [List.getElem?_cons_zero, Option.some.injEq] at hj
        subst hj
        simp only [List.set_cons_succ, List.set_cons_zero]
        have h1 := cons_set_perm t m c a hi
        exact h1
      | succ k =>
        simp only [List.getElem?_cons_succ] at hj
        simp only [List.set_cons_succ]
        exact List.Perm.cons c (ih m k a b hi hj)

theorem swapAt_perm (s s1 : List Peer) (i j : Nat) (h : swapAt s i j = some s1) :
    s1.Perm s := by
  unfold swapAt at h
  cases hi : s[i]? with
  | none => simp [hi] at h
  | some a =>
    cases hj : s[j]? with
    | none => simp [hi, hj] at h
    | some b =>
      simp only [hi, hj, Option.some.injEq] at h
      rw [← h]
      exact set_set_perm_of_getElem? s i j a b hi hj

theorem shuffleRounds_perm (howMany : Nat) :
    ∀ (rounds : Nat) (r r1 : RandSource) (s s1 : List Peer),
      shuffleRounds howMany rounds r s = some (s1, r1) → s1.Perm s := by
  intro rounds
  induction rounds with
  | zero =>
    intro r r1 s s1 h
    simp only [shuffleRounds, Option.some.injEq, Prod.mk.injEq] at h
    rw [← h.1]
  | succ n ih =>
    intro r r1 s s1 h
    simp only [shuffleRounds] at h
    split at h
    · exact ih _ _ _ _ h
    · cases hs : swapAt s (r.Int63.1 % howMany) (r.Int63.2.Int63.1 % howMany) with
      | none => simp [hs] at h
      | some s2 =>
        simp only [hs] at h
        exact (ih _ _ _ _ h).trans (swapAt_perm s s2 _ _ hs)

/-- C11: for every roster and every random source, `shuffleProducers` returns a roster
that is a permutation of the roster it was given: it has the same length and holds
every peer exactly as many times as before, so no candidate is dropped or duplicated. -/
theorem shuffleProducers_perm (s : List Peer) (r : RandSource) :
    ∃ s1 r1, shuffleProducers s r = some (s1, r1) ∧ s1.Perm s ∧
      s1.length = s.length ∧ ∀ p : Peer, s1.count p = s.count p := by
  obtain ⟨s1, r1, h1, h2, _⟩ := shuffleProducers_spec s r
  have hperm : s1.Perm s := by
    unfold shuffleProducers at h1
    split at h1
    · exact shuffleRounds_perm _ 100 r r1 s s1 h1
    · simp only [Option.some.injEq, Prod.mk.injEq] at h1
      rw [← h1.1]
  exact ⟨s1, r1, h1, hperm, h2, fun p => hperm.count_eq p⟩

end Bios
